import Mathlib

/-!
Verification development for the gx-kanban board codec and store.

The TypeScript sources are shallowly embedded as executable Lean
definitions: strings are Lean `String`s manipulated through their
character lists, JavaScript `number` indices are `Int`, nullable values
are `Option`, and the throwing parser is an `Except`.  All recursion is
structural (or fuel-bounded by the input length) so that every
definition evaluates inside the kernel.

Modelling notes, stated once here:
* JavaScript `\s`, `trim`, `trimEnd` recognise a large Unicode
  whitespace class; the embedding models the ASCII subset
  (space, tab, newline, carriage return, vertical tab, form feed),
  which is exhaustive for the character data handled by the board
  format.
* `String.prototype.toLowerCase` is modelled as ASCII lowercasing.
* `localeCompare` (used to sort tag lists) is modelled as code-point
  comparison; the two orders agree on the lowercase ASCII tag alphabet
  used throughout.
* The `yaml` npm dependency is not part of the repository; it is
  modelled by a small block-style YAML codec covering exactly the
  document shape the board frontmatter uses (scalar values and one
  nested block sequence of flat maps).  `parseYamlModel` returning
  `none` models the library throwing.
* `createId` draws on `Math.random`/`Date.now`; no claim depends on the
  value of a freshly generated identifier, so it is modelled as a fixed
  placeholder string.
-/

namespace GxKanban

/-- JavaScript whitespace class (`\s`), restricted to ASCII. -/
def isJsWs (c : Char) : Bool :=
  c == ' ' || c == '\t' || c == '\n' || c == '\r' ||
    c == Char.ofNat 11 || c == Char.ofNat 12

/-- Characters allowed in a hashtag body and in block anchors:
`[A-Za-z0-9/_-]`. -/
def isTagChar (c : Char) : Bool :=
  c.isAlpha || c.isDigit || c == '/' || c == '_' || c == '-'

/-- Model of `String.prototype.trim` (strip leading and trailing
whitespace). -/
def jsTrim (s : String) : String :=
  String.mk (((s.data.dropWhile isJsWs).reverse.dropWhile isJsWs).reverse)

/-- Model of `String.prototype.trimEnd`. -/
def jsTrimEnd (s : String) : String :=
  String.mk ((s.data.reverse.dropWhile isJsWs).reverse)

/-- Model of `str.startsWith(pfx)`. -/
def jsStartsWith (s pfx : String) : Bool :=
  pfx.data.isPrefixOf s.data

/-- Index of the first occurrence of `pat` inside `cs`, if any. -/
def findSub (pat : List Char) : List Char → Option Nat
  | [] => if pat.isEmpty then some 0 else none
  | c :: rest =>
    if pat.isPrefixOf (c :: rest) then some 0
    else (findSub pat rest).map (· + 1)

/-- Model of `str.includes(sub)` (substring containment). -/
def jsIncludes (s sub : String) : Bool :=
  (findSub sub.data s.data).isSome

/-- ASCII model of `String.prototype.toLowerCase`. -/
def jsToLower (s : String) : String :=
  String.mk (s.data.map Char.toLower)

/-- Split a character list at every occurrence of the separator; like
`String.prototype.split` with a single-character separator, this keeps
empty segments. -/
def splitCharsOn (sep : Char) (cs : List Char) : List (List Char) :=
  cs.foldr
    (fun c acc =>
      match acc with
      | [] => [[c]]
      | seg :: segs => if c == sep then [] :: seg :: segs else (c :: seg) :: segs)
    [[]]

/-- Model of `str.split('\n')`. -/
def splitLines (s : String) : List String :=
  (splitCharsOn '\n' s.data).map String.mk

/-- Model of `content.replace(/\r\n/g, '\n')` (`normalizeNewlines` in
both `parse.ts` and `cardContent.ts`). -/
def normNlChars : List Char → List Char
  | [] => []
  | '\r' :: '\n' :: rest => '\n' :: normNlChars rest
  | c :: rest => c :: normNlChars rest

def normalizeNewlines (s : String) : String :=
  String.mk (normNlChars s.data)

/-- Drop one leading indent level: `line.replace(/^( {2}|\t)/, '')`. -/
def stripOneIndent (s : String) : String :=
  match s.data with
  | ' ' :: ' ' :: rest => String.mk rest
  | '\t' :: rest => String.mk rest
  | _ => s

/-! ## Card normalization (`src/model/card.ts`) -/

/-- Scan for hashtag occurrences, mirroring the global regex
`(^|\s)#([A-Za-z0-9/_-]+)`: a `#` at the start of the text or after a
whitespace character, followed by a non-empty run of tag characters.
The scan walks one character at a time carrying whether a match may
start here, which coincides with the regex `exec` loop because tag
bodies never contain `#` or whitespace. -/
def scanTags : Bool → List Char → List String
  | _, [] => []
  | prevOk, c :: rest =>
    if c == '#' && prevOk then
      let body := rest.takeWhile isTagChar
      if body.isEmpty then scanTags false rest
      else String.mk ('#' :: body.map Char.toLower) :: scanTags false rest
    else scanTags (isJsWs c) rest

/-- Keep the first occurrence of each string (the `Set` in
`extractTags` and `sortUnique`). -/
def dedupKeepFirst (seen : List String) : List String → List String
  | [] => []
  | x :: xs =>
    if seen.contains x then dedupKeepFirst seen xs
    else x :: dedupKeepFirst (x :: seen) xs

/-- Insertion into a sorted list by code-point order (model of
`Array.prototype.sort` with `localeCompare`). -/
def insertSorted (x : String) : List String → List String
  | [] => [x]
  | y :: ys => if decide (x ≤ y) then x :: y :: ys else y :: insertSorted x ys

def sortStrings (l : List String) : List String :=
  l.foldr insertSorted []

/-- Model of `extractTags`: collect hashtag tokens, lowercased,
deduplicated, sorted. -/
def extractTags (text : String) : List String :=
  sortStrings (dedupKeepFirst [] (scanTags true text.data))

/-- The due-date pattern `^\d{4}-\d{2}-\d{2}$`. -/
def dueShape (s : String) : Bool :=
  match s.data with
  | [a, b, c, d, h1, e, f, h2, g, h] =>
    a.isDigit && b.isDigit && c.isDigit && d.isDigit && h1 == '-' &&
      e.isDigit && f.isDigit && h2 == '-' && g.isDigit && h.isDigit
  | _ => false

/-- Model of `normalizeDueDate`: falsy or pattern-violating input
becomes `none`, otherwise the trimmed value is kept. -/
def normalizeDueDate (value : Option String) : Option String :=
  match value with
  | none => none
  | some v =>
    if v == "" then none
    else
      let trimmed := jsTrim v
      if dueShape trimmed then some trimmed else none

/-- Model of `normalizeTagFilter`. -/
def normalizeTagFilter (tag : String) : String :=
  let normalized := jsToLower (jsTrim tag)
  if normalized == "" then ""
  else if jsStartsWith normalized "#" then normalized
  else "#" ++ normalized

/-- Model of `buildSearchText`. -/
def buildSearchText (title description : String) (tags : List String)
    (dueDate : Option String) : String :=
  jsToLower (String.intercalate "\n"
    [title, description, String.intercalate " " tags, dueDate.getD ""])

/-- The board `Card` record (`src/model/types.ts`). -/
structure Card where
  id : String
  title : String
  description : String
  checked : Bool
  dueDate : Option String
  tags : List String
  searchText : String
deriving Repr, DecidableEq

/-- The raw input of `normalizeCard` (`Omit<Card, 'tags'|'searchText'>`). -/
structure CardInput where
  id : String
  title : String
  description : String
  checked : Bool
  dueDate : Option String
deriving Repr, DecidableEq

/-- Model of `normalizeCard`: validate the due date and recompute the
derived `tags` and `searchText` fields. -/
def normalizeCard (input : CardInput) : Card :=
  let dueDate := normalizeDueDate input.dueDate
  let tags := extractTags (input.title ++ "\n" ++ input.description)
  { id := input.id
    title := input.title
    description := input.description
    checked := input.checked
    dueDate := dueDate
    tags := tags
    searchText := buildSearchText input.title input.description tags dueDate }

/-! ## Data model (`src/model/types.ts`) -/

inductive CardDensity where
  | normal
  | compact
deriving Repr, DecidableEq

def CardDensity.text : CardDensity → String
  | .normal => "normal"
  | .compact => "compact"

structure ColumnDefinition where
  id : String
  title : String
  wipLimit : Option Int
deriving Repr, DecidableEq

structure Column where
  id : String
  title : String
  wipLimit : Option Int
  cards : List Card
deriving Repr, DecidableEq

structure BoardDocument where
  boardTitle : String
  boardDescription : String
  density : CardDensity
  columns : List Column
  archive : List Card
deriving Repr, DecidableEq

structure BoardFilter where
  query : String
  tag : String
deriving Repr, DecidableEq

structure BoardStoreSnapshot where
  board : BoardDocument
  filter : BoardFilter
  visibleColumns : List Column
  allTags : List String
deriving Repr, DecidableEq

/-- Frontmatter record written by the serializer (`kanban: true` and
`kanbanVersion: 1` are fixed; `boardDescription` is omitted when the
board description is empty). -/
structure BoardFrontmatter where
  boardTitle : String
  boardDescription : Option String
  density : CardDensity
  columns : List ColumnDefinition
deriving Repr, DecidableEq

/-- Model of `createDefaultBoard` (`src/model/boardTemplate.ts`). -/
def createDefaultBoard (boardTitle : String) : BoardDocument :=
  { boardTitle := boardTitle
    boardDescription := ""
    density := .normal
    columns := []
    archive := [] }

/-- Model of `createId` (`src/model/id.ts`).  The source combines a
timestamp with random characters; no claim depends on the value of a
generated identifier, so the model emits a fixed placeholder suffix. -/
def createId (pfx : String) : String :=
  pfx ++ "-generated"

/-! ## YAML model

The `yaml` npm package is an external dependency, so its behaviour on
the block-style subset used by board frontmatter is modelled directly:
a top-level mapping whose values are scalars or one nested block
sequence of flat maps.  `parseYamlModel` returning `none` stands for
the library throwing on malformed input. -/

inductive Yaml where
  | nullV
  | boolV (b : Bool)
  | numV (n : Int)
  | strV (s : String)
  | arrV (items : List Yaml)
  | objV (entries : List (String × Yaml))
deriving Repr

def Yaml.get? : Yaml → String → Option Yaml
  | .objV es, k => (es.find? (fun e => e.fst == k)).map (·.snd)
  | _, _ => none

/-- JavaScript `typeof v === 'object'` for non-null YAML results (both
plain objects and arrays satisfy it). -/
def Yaml.isObjLike : Yaml → Bool
  | .objV _ => true
  | .arrV _ => true
  | _ => false

/-- An integer literal, optionally negative. -/
def isIntLit (s : String) : Bool :=
  match s.data with
  | '-' :: rest => !rest.isEmpty && rest.all Char.isDigit
  | cs => !cs.isEmpty && cs.all Char.isDigit

def digitsToNat (cs : List Char) : Nat :=
  cs.foldl (fun n c => 10 * n + (c.toNat - 48)) 0

def parseIntLit (s : String) : Int :=
  match s.data with
  | '-' :: rest => -(digitsToNat rest : Int)
  | cs => (digitsToNat cs : Int)

def unescapeChars : List Char → List Char
  | [] => []
  | '\\' :: 'n' :: rest => '\n' :: unescapeChars rest
  | '\\' :: '"' :: rest => '"' :: unescapeChars rest
  | '\\' :: '\\' :: rest => '\\' :: unescapeChars rest
  | c :: rest => c :: unescapeChars rest

/-- A double-quoted YAML scalar `"..."`. -/
def isQuoted (s : String) : Bool :=
  match s.data with
  | '"' :: (c :: cs) => ((c :: cs).getLast (by simp)) == '"'
  | _ => false

def unquote (s : String) : String :=
  match s.data with
  | '"' :: rest => String.mk (unescapeChars (rest.dropLast))
  | _ => s

/-- Decode one trimmed scalar token. -/
def parseScalar (s : String) : Yaml :=
  if s == "" || s == "~" || s == "null" then .nullV
  else if s == "true" then .boolV true
  else if s == "false" then .boolV false
  else if s == "[]" then .arrV []
  else if isIntLit s then .numV (parseIntLit s)
  else if isQuoted s then .strV (unquote s)
  else .strV s

def strDropChars (s : String) (n : Nat) : String :=
  String.mk (s.data.drop n)

/-- Split a mapping line at the first `:` that is followed by a space
or ends the line. -/
def splitKeyLine (cs : List Char) : Option (String × String) :=
  go [] cs
where
  go (acc : List Char) : List Char → Option (String × String)
    | [] => none
    | ':' :: [] => some (String.mk acc.reverse, "")
    | ':' :: ' ' :: v => some (String.mk acc.reverse, String.mk v)
    | c :: r => go (c :: acc) r

/-- Entries of a de-indented flat map (`id: a` / `title: A` /
`wipLimit: null` lines of one sequence item). -/
def parseFlatEntries : List String → Option (List (String × Yaml))
  | [] => some []
  | l :: rest =>
    match splitKeyLine l.data with
    | none => none
    | some (k, v) =>
      (parseFlatEntries rest).map (fun es => (jsTrim k, parseScalar (jsTrim v)) :: es)

/-- Items of a block sequence indented two spaces (`  - key: value`
with four-space continuation lines). -/
def parseSeqItems (fuel : Nat) (lines : List String) : Option (List Yaml) :=
  match fuel, lines with
  | _, [] => some []
  | 0, _ => none
  | Nat.succ f, l :: rest =>
    if jsTrim l == "" then parseSeqItems f rest
    else if jsStartsWith l "  - " then
      let split := rest.span (fun s => jsStartsWith s "    ")
      let inner := strDropChars l 4 :: split.fst.map (fun s => strDropChars s 4)
      match parseFlatEntries inner, parseSeqItems f split.snd with
      | some es, some items => some (.objV es :: items)
      | _, _ => none
    else none

/-- Top-level mapping entries. -/
def parseTopEntries (fuel : Nat) (lines : List String) :
    Option (List (String × Yaml)) :=
  match fuel, lines with
  | _, [] => some []
  | 0, _ => none
  | Nat.succ f, l :: rest =>
    if jsTrim l == "" then parseTopEntries f rest
    else if jsStartsWith l " " then none
    else
      match splitKeyLine l.data with
      | none => none
      | some (k, v) =>
        if jsTrim v == "" then
          let split := rest.span (fun s => jsStartsWith s "  " || jsTrim s == "")
          if split.fst.all (fun s => jsTrim s == "") then
            (parseTopEntries f rest).map (fun es => (jsTrim k, Yaml.nullV) :: es)
          else
            match parseSeqItems split.fst.length split.fst, parseTopEntries f split.snd with
            | some items, some es => some ((jsTrim k, Yaml.arrV items) :: es)
            | _, _ => none
        else
          (parseTopEntries f rest).map (fun es => (jsTrim k, parseScalar (jsTrim v)) :: es)

/-- Model of `parseYaml` from the `yaml` package on the frontmatter
subset.  An all-blank document decodes to `null` (which the caller then
rejects as not an object); a document whose first significant line is
not a mapping entry decodes to a plain scalar string. -/
def parseYamlModel (content : String) : Option Yaml :=
  let lines := splitLines content
  match lines.filter (fun l => jsTrim l != "") with
  | [] => some .nullV
  | first :: _ =>
    match splitKeyLine first.data with
    | none => some (.strV (jsTrim content))
    | some _ => (parseTopEntries lines.length lines).map .objV

/-- Characters a scalar may contain while still being emitted plain. -/
def plainSafeChar (c : Char) : Bool :=
  c.isAlpha || c.isDigit || c == ' ' || c == '-' || c == '_' || c == '.' || c == '/'

def plainSafe (s : String) : Bool :=
  match s.data with
  | [] => false
  | c :: cs =>
    !(c == ' ') && !(c == '-') && (c :: cs).all plainSafeChar &&
      !(((c :: cs).getLast (by simp)) == ' ') && !(isIntLit s) &&
      !(s == "true" || s == "false" || s == "null" || s == "~" || s == "[]")

def escapeChars : List Char → List Char
  | [] => []
  | '"' :: rest => '\\' :: '"' :: escapeChars rest
  | '\\' :: rest => '\\' :: '\\' :: escapeChars rest
  | '\n' :: rest => '\\' :: 'n' :: escapeChars rest
  | c :: rest => c :: escapeChars rest

def yamlScalarOut (s : String) : String :=
  if plainSafe s then s else "\"" ++ String.mk (escapeChars s.data) ++ "\""

def wipLimitYaml : Option Int → String
  | some n => toString n
  | none => "null"

/-- Model of `stringifyYaml` from the `yaml` package applied to a
`BoardFrontmatter` record (block style, two-space sequence indent). -/
def stringifyYamlModel (fm : BoardFrontmatter) : String :=
  let colLines :=
    if fm.columns.isEmpty then ["columns: []"]
    else
      "columns:" :: fm.columns.foldr
        (fun d acc =>
          ("  - id: " ++ yamlScalarOut d.id) ::
            ("    title: " ++ yamlScalarOut d.title) ::
            ("    wipLimit: " ++ wipLimitYaml d.wipLimit) :: acc)
        []
  let descLines :=
    match fm.boardDescription with
    | some d => ["boardDescription: " ++ yamlScalarOut d]
    | none => []
  String.intercalate "\n"
    (["kanban: true", "kanbanVersion: 1", "boardTitle: " ++ yamlScalarOut fm.boardTitle] ++
      descLines ++ ["density: " ++ fm.density.text] ++ colLines) ++ "\n"

/-! ## Board codec — parse (`src/model/parse.ts`) -/

structure BoardParseError where
  message : String
deriving Repr, DecidableEq

structure ParsedColumn where
  id : String
  title : String
  cards : List Card
deriving Repr, DecidableEq

/-- The frontmatter regex `^---\n([\s\S]*?)\n---\n?`: a leading
`---` line, the lazily matched header text, a closing `---` and an
optional newline that is consumed into the match. -/
def splitFm (content : String) : Option (String × String) :=
  let cs := (normalizeNewlines content).data
  if ("---\n".data).isPrefixOf cs then
    let rest := cs.drop 4
    match findSub ("\n---".data) rest with
    | some i =>
      let inner := rest.take i
      let after := rest.drop (i + 4)
      let body := match after with
        | '\n' :: t => t
        | t => t
      some (String.mk inner, String.mk body)
    | none => none
  else none

/-- Model of `splitFrontmatter`: the three structural failure modes
keep the exact messages of the source. -/
def splitFrontmatter (content : String) : Except BoardParseError (Yaml × String) :=
  match splitFm content with
  | none => .error ⟨"Kanban board is missing YAML frontmatter."⟩
  | some (inner, body) =>
    match parseYamlModel inner with
    | none => .error ⟨"Kanban frontmatter could not be parsed as YAML."⟩
    | some y =>
      if y.isObjLike then .ok (y, body)
      else .error ⟨"Kanban frontmatter must be a YAML object."⟩

/-- Model of `parseDensity` (`value === 'compact'` or the default). -/
def parseDensity (value : Option Yaml) : CardDensity :=
  match value with
  | some (.strV s) => if s == "compact" then .compact else .normal
  | _ => .normal

/-- Model of `parseWipLimit`.  YAML numbers are modelled as integers,
so the `Math.floor` of the source is the identity. -/
def parseWipLimit (value : Option Yaml) : Option Int :=
  match value with
  | some (.numV n) => if n ≥ 0 then some n else none
  | _ => none

def yamlStrField (y : Yaml) (k : String) : String :=
  match y.get? k with
  | some (.strV s) => s
  | _ => ""

/-- Model of `parseColumnDefinitions`: malformed entries are dropped
silently. -/
def parseColumnDefinitions (value : Option Yaml) : List ColumnDefinition :=
  match value with
  | some (.arrV items) =>
    items.filterMap fun it =>
      if it.isObjLike then
        let id := jsTrim (yamlStrField it "id")
        let title := jsTrim (yamlStrField it "title")
        if id == "" || title == "" then none
        else some { id := id, title := title, wipLimit := parseWipLimit (it.get? "wipLimit") }
      else none
  | _ => []

/-- Consume `\s+`: at least one whitespace character, then the rest. -/
def eatWs1 : List Char → Option (List Char)
  | [] => none
  | c :: rest => if isJsWs c then some (rest.dropWhile isJsWs) else none

/-- Model of `cardRegex` `^-\s+\[([ xX])]\s+\[([^\]]+)]\s*(.*)$`,
returning the checkbox character, the raw id and the title remainder
(with leading whitespace already consumed by `\s*`). -/
def matchCardLine (line : String) : Option (Char × String × String) :=
  match line.data with
  | '-' :: r0 =>
    match eatWs1 r0 with
    | some ('[' :: m :: ']' :: r2) =>
      if m == ' ' || m == 'x' || m == 'X' then
        match eatWs1 r2 with
        | some ('[' :: r4) =>
          let idc := r4.takeWhile (fun c => !(c == ']'))
          match r4.dropWhile (fun c => !(c == ']')) with
          | ']' :: r6 =>
            if idc.isEmpty then none
            else some (m, String.mk idc, String.mk (r6.dropWhile isJsWs))
          | _ => none
        | _ => none
      else none
    | _ => none
  | _ => none

/-- Model of `headingRegex` `^##\s+\[([^\]]+)]\s+(.+?)\s*$`, returning
the raw id and the raw remainder after the closing bracket.  The
remainder must start with a whitespace character and contain at least
one further character (the lazily matched group), mirroring the
backtracking behaviour of `\s+(.+?)\s*$`. -/
def matchHeadingLine (line : String) : Option (String × String) :=
  match line.data with
  | '#' :: '#' :: r0 =>
    match eatWs1 r0 with
    | some ('[' :: r1) =>
      let idc := r1.takeWhile (fun c => !(c == ']'))
      match r1.dropWhile (fun c => !(c == ']')) with
      | ']' :: r2 =>
        if idc.isEmpty then none
        else
          match r2 with
          | c0 :: _ :: _ => if isJsWs c0 then some (String.mk idc, String.mk r2) else none
          | _ => none
      | _ => none
    | _ => none
  | _ => none

/-- Model of `dueLineRegex` applied to a trimmed line:
`^due::\s*(\d{4}-\d{2}-\d{2})\s*$`. -/
def dueMatchOf (t : String) : Option String :=
  match t.data with
  | 'd' :: 'u' :: 'e' :: ':' :: ':' :: r =>
    let date := String.mk (r.dropWhile isJsWs)
    if dueShape date then some date else none
  | _ => none

/-- Model of `blockAnchorRegex` applied to a trimmed line:
`^\^[A-Za-z0-9/_-]+\s*$`. -/
def isAnchorTrimmed (t : String) : Bool :=
  match t.data with
  | '^' :: rest => !rest.isEmpty && rest.all isTagChar
  | _ => false

/-- Model of `normalizeDescription`: drop trailing blank lines, discard
anchor lines, consume the first due line, keep everything else. -/
def normalizeDescription (rawLines : List String) : String × Option String :=
  go none [] ((rawLines.reverse.dropWhile (fun l => jsTrim l == "")).reverse)
where
  go (dueDate : Option String) (acc : List String) :
      List String → String × Option String
    | [] => (jsTrimEnd (String.intercalate "\n" acc.reverse), dueDate)
    | line :: rest =>
      if isAnchorTrimmed (jsTrim line) then go dueDate acc rest
      else
        match dueDate, dueMatchOf (jsTrim line) with
        | none, some g => go (normalizeDueDate (some g)) acc rest
        | _, _ => go dueDate (line :: acc) rest

/-- Continuation lines of a card: not a card line, not a heading, and
blank or indented by one level (two spaces or a tab). -/
def isContinuationLine (nl : String) : Bool :=
  (matchCardLine nl).isNone && (matchHeadingLine nl).isNone &&
    (jsTrim nl == "" || jsStartsWith nl "  " || jsStartsWith nl "\t")

/-- Fuelled worker for `parseCardsFromLines`; the fuel is the number of
lines, and every step consumes at least one line. -/
def parseCardsGo (fuel : Nat) (lines : List String) : List Card :=
  match fuel, lines with
  | _, [] => []
  | 0, _ => []
  | Nat.succ f, l :: rest =>
    match matchCardLine l with
    | none => parseCardsGo f rest
    | some (m, idRaw, titleRaw) =>
      let split := rest.span isContinuationLine
      let nd := normalizeDescription (split.fst.map stripOneIndent)
      normalizeCard
        { id := if jsTrim idRaw == "" then createId "card" else jsTrim idRaw
          title := jsTrim titleRaw
          description := nd.fst
          checked := Char.toLower m == 'x'
          dueDate := nd.snd } :: parseCardsGo f split.snd

def parseCardsFromLines (lines : List String) : List Card :=
  parseCardsGo lines.length lines

/-- Fuelled worker for `parseColumnsFromBody`: each heading opens a
section running to the next heading or the end. -/
def parseColumnsGo (fuel : Nat) (lines : List String) : List ParsedColumn :=
  match fuel, lines with
  | _, [] => []
  | 0, _ => []
  | Nat.succ f, l :: rest =>
    match matchHeadingLine l with
    | none => parseColumnsGo f rest
    | some (idRaw, titleRest) =>
      let split := rest.span (fun nl => (matchHeadingLine nl).isNone)
      { id := if jsTrim idRaw == "" then createId "column" else jsTrim idRaw
        title := if jsTrim titleRest == "" then "Untitled" else jsTrim titleRest
        cards := parseCardsFromLines split.fst } :: parseColumnsGo f split.snd

def parseColumnsFromBody (body : String) : List ParsedColumn :=
  let lines := splitLines (normalizeNewlines body)
  parseColumnsGo lines.length lines

def archiveStartMarker : String := "%% kanban-next:archive:start %%"

def archiveEndMarker : String := "%% kanban-next:archive:end %%"

/-- Model of `extractArchiveSection`.  The source regex tolerates
arbitrary whitespace inside the marker comments; the model searches for
the canonical marker spelling (the only form the serializer emits and
the claims exercise). -/
def extractArchiveSection (body : String) : String × List Card :=
  let cs := (normalizeNewlines body).data
  match findSub archiveStartMarker.data cs with
  | none => (String.mk cs, [])
  | some i =>
    let afterStart := cs.drop (i + archiveStartMarker.data.length)
    let afterStart1 := match afterStart with
      | '\n' :: t => t
      | t => t
    match findSub archiveEndMarker.data afterStart1 with
    | none => (String.mk cs, [])
    | some j =>
      let contentRaw := afterStart1.take j
      let content :=
        if contentRaw.getLast? == some '\n' then contentRaw.dropLast else contentRaw
      let post := afterStart1.drop (j + archiveEndMarker.data.length)
      (String.mk (cs.take i ++ post),
        parseCardsFromLines (splitLines (String.mk content)))

/-- Lookup of a body column by id; the source builds a `Map` from the
body list, so a duplicated id resolves to the last occurrence. -/
def bodyColumnById (fromBody : List ParsedColumn) (id : String) : Option ParsedColumn :=
  (fromBody.filter (fun c => c.id == id)).getLast?

/-- Model of `mergeColumns`: header-declared columns first (cards taken
from the matching body section), then body sections whose id was not
declared in the header. -/
def mergeColumns (fromFrontmatter : List ColumnDefinition)
    (fromBody : List ParsedColumn) : List Column :=
  let seen := fromFrontmatter.map (·.id)
  let headerCols := fromFrontmatter.map fun d =>
    let bodyColumn := bodyColumnById fromBody d.id
    { id := d.id
      title :=
        if d.title != "" then d.title
        else
          match bodyColumn with
          | some bc => if bc.title != "" then bc.title else "Untitled"
          | none => "Untitled"
      wipLimit := d.wipLimit
      cards :=
        match bodyColumn with
        | some bc => bc.cards
        | none => [] }
  let extras := (fromBody.filter (fun bc => !(seen.contains bc.id))).map fun bc =>
    { id := bc.id, title := bc.title, wipLimit := none, cards := bc.cards }
  headerCols ++ extras

/-- Model of `parseBoardMarkdown`. -/
def parseBoardMarkdown (content : String) : Except BoardParseError BoardDocument :=
  match splitFrontmatter content with
  | .error e => .error e
  | .ok (fm, body) =>
    match fm.get? "kanban" with
    | some (.boolV true) =>
      let boardTitle :=
        match fm.get? "boardTitle" with
        | some (.strV s) => if (jsTrim s).length > 0 then jsTrim s else "Untitled Kanban"
        | _ => "Untitled Kanban"
      let boardDescription :=
        match fm.get? "boardDescription" with
        | some (.strV s) => jsTrim s
        | _ => ""
      let density := parseDensity (fm.get? "density")
      let frontmatterColumns := parseColumnDefinitions (fm.get? "columns")
      let arch := extractArchiveSection body
      let bodyColumns := parseColumnsFromBody arch.fst
      let columns := mergeColumns frontmatterColumns bodyColumns
      if columns.isEmpty then
        .ok { createDefaultBoard boardTitle with
                boardDescription := boardDescription
                density := density
                archive := arch.snd }
      else
        .ok { boardTitle := boardTitle
              boardDescription := boardDescription
              density := density
              columns := columns
              archive := arch.snd }
    | _ => .error ⟨"File frontmatter is missing `kanban: true`."⟩

/-! ## Board codec — serialize (`src/model/serialize.ts`) -/

def normalizeColumns (board : BoardDocument) : List ColumnDefinition :=
  board.columns.map fun column =>
    { id := column.id
      title := column.title
      wipLimit :=
        match column.wipLimit with
        | some n => if n ≥ 0 then some n else none
        | none => none }

def buildFrontmatter (board : BoardDocument) : BoardFrontmatter :=
  { boardTitle := board.boardTitle
    boardDescription :=
      if board.boardDescription == "" then none else some board.boardDescription
    density := board.density
    columns := normalizeColumns board }

/-- Model of `serializeCard`: checkbox+id+title line, anchor line, then
indented description text followed by the due line, then one blank
separator line. -/
def serializeCard (card : Card) : List String :=
  let normalized := normalizeCard
    { id := card.id
      title := jsTrim card.title
      description := card.description
      checked := card.checked
      dueDate := normalizeDueDate card.dueDate }
  let head := "- [" ++ (if normalized.checked then "x" else " ") ++ "] [" ++
    normalized.id ++ "] " ++ normalized.title
  let descriptionChunks :=
    (if jsTrim normalized.description != "" then [jsTrimEnd normalized.description] else []) ++
      (match normalized.dueDate with
       | some d => ["due:: " ++ d]
       | none => [])
  let descLines :=
    if descriptionChunks.isEmpty then []
    else (splitLines (String.intercalate "\n" descriptionChunks)).map (fun l => "  " ++ l)
  [head, "  ^" ++ normalized.id] ++ descLines ++ [""]

def serializeArchive (archive : List Card) : List String :=
  if archive.isEmpty then []
  else
    ["", archiveStartMarker, ""] ++ (archive.map serializeCard).flatten ++
      [archiveEndMarker, ""]

/-- Model of `serializeBoardMarkdown`. -/
def serializeBoardMarkdown (board : BoardDocument) : String :=
  let yaml := jsTrimEnd (stringifyYamlModel (buildFrontmatter board))
  let columnLines := (board.columns.map (fun column =>
    ("## [" ++ column.id ++ "] " ++ column.title) :: "" ::
      ((column.cards.map serializeCard).flatten ++ [""]))).flatten
  let lines := ["---", yaml, "---", ""] ++ columnLines ++ serializeArchive board.archive
  String.intercalate "\n" ((lines.reverse.dropWhile (fun l => l == "")).reverse) ++ "\n"

/-! ## Board document store (`src/state/BoardStore.ts`) -/

structure BoardStore where
  board : BoardDocument
  filter : BoardFilter
deriving Repr, DecidableEq

/-- Re-normalized copy of a card, as produced inside `cloneBoard`. -/
def cloneCard (card : Card) : Card :=
  normalizeCard
    { id := card.id
      title := card.title
      description := card.description
      checked := card.checked
      dueDate := card.dueDate }

/-- Model of `cloneBoard`: every card is passed through `normalizeCard`
again; the `typeof wipLimit === 'number'` guard is the identity on
`Option Int`. -/
def cloneBoard (board : BoardDocument) : BoardDocument :=
  { boardTitle := board.boardTitle
    boardDescription := board.boardDescription
    density := board.density
    columns := board.columns.map fun column =>
      { id := column.id
        title := column.title
        wipLimit := column.wipLimit
        cards := column.cards.map cloneCard }
    archive := board.archive.map cloneCard }

/-- Model of `sortUnique`. -/
def sortUnique (values : List String) : List String :=
  sortStrings (dedupKeepFirst [] values)

/-- The `BoardStore` constructor: clone the board, start with an empty
filter. -/
def mkStore (board : BoardDocument) : BoardStore :=
  { board := cloneBoard board, filter := { query := "", tag := "" } }

def getBoard (st : BoardStore) : BoardDocument :=
  cloneBoard st.board

def setBoard (st : BoardStore) (board : BoardDocument) : BoardStore :=
  { st with board := cloneBoard board }

def setFilterQuery (st : BoardStore) (query : String) : BoardStore :=
  { st with filter := { query := query, tag := st.filter.tag } }

def setFilterTag (st : BoardStore) (tag : String) : BoardStore :=
  { st with filter := { query := st.filter.query, tag := normalizeTagFilter tag } }

def clearFilter (st : BoardStore) : BoardStore :=
  { st with filter := { query := "", tag := "" } }

/-- Model of `setBoardMetadata`: a blank title keeps the previous board
title, description is stored trimmed, density replaced. -/
def setBoardMetadata (st : BoardStore) (boardTitle boardDescription : String)
    (density : CardDensity) : BoardStore :=
  { st with board :=
    { st.board with
        boardTitle := if jsTrim boardTitle != "" then jsTrim boardTitle else st.board.boardTitle
        boardDescription := jsTrim boardDescription
        density := density } }

def addColumn (st : BoardStore) (column : Column) : BoardStore :=
  { st with board := { st.board with columns := st.board.columns ++ [column] } }

/-- Model of `renameColumn`: `title.trim() || column.title`. -/
def renameColumn (st : BoardStore) (columnId title : String) : BoardStore :=
  { st with board :=
    { st.board with columns := st.board.columns.map fun column =>
        if column.id == columnId then
          { column with title := if jsTrim title != "" then jsTrim title else column.title }
        else column } }

def setColumnWipLimit (st : BoardStore) (columnId : String) (limit : Option Int) :
    BoardStore :=
  { st with board :=
    { st.board with columns := st.board.columns.map fun column =>
        if column.id == columnId then
          { column with wipLimit :=
              match limit with
              | some n => if n ≥ 0 then some n else none
              | none => none }
        else column } }

def deleteColumn (st : BoardStore) (columnId : String) : BoardStore :=
  { st with board :=
    { st.board with columns := st.board.columns.filter (fun c => c.id != columnId) } }

/-- Clamp of `Math.max(0, Math.min(targetIndex, len))` on a JavaScript
number index. -/
def clampIdx (i : Int) (len : Nat) : Nat :=
  (max 0 (min i (len : Int))).toNat

/-- Removal of the element at an index (`splice(i, 1)`). -/
def spliceRemove (l : List α) (i : Nat) : List α :=
  l.take i ++ l.drop (i + 1)

/-- Insertion at an index (`splice(i, 0, x)`). -/
def spliceInsert (l : List α) (i : Nat) (x : α) : List α :=
  l.take i ++ x :: l.drop i

def moveColumn (st : BoardStore) (sourceColumnId : String) (targetIndex : Int) :
    BoardStore :=
  match st.board.columns.findIdx? (fun c => c.id == sourceColumnId) with
  | none => st
  | some si =>
    match st.board.columns.get? si with
    | none => st
    | some moved =>
      let removed := spliceRemove st.board.columns si
      let nextIndex := clampIdx targetIndex removed.length
      { st with board := { st.board with columns := spliceInsert removed nextIndex moved } }

def addCard (st : BoardStore) (columnId : String) (card : Card) (top : Bool) :
    BoardStore :=
  { st with board :=
    { st.board with columns := st.board.columns.map fun column =>
        if column.id == columnId then
          { column with cards := if top then card :: column.cards else column.cards ++ [card] }
        else column } }

/-- Model of `insertCardsFromParsedLines`, returning the reported count
together with the next store state. -/
def insertCardsFromParsedLines (st : BoardStore) (columnId : String)
    (cards : List Card) (before : Bool) : Nat × BoardStore :=
  if cards.isEmpty then (0, st)
  else
    (cards.length,
      { st with board :=
        { st.board with columns := st.board.columns.map fun column =>
            if column.id == columnId then
              { column with cards := if before then cards ++ column.cards else column.cards ++ cards }
            else column } })

def getCard (st : BoardStore) (columnId cardId : String) : Option Card :=
  match st.board.columns.find? (fun c => c.id == columnId) with
  | none => none
  | some column => column.cards.find? (fun c => c.id == cardId)

def updateCard (st : BoardStore) (columnId cardId : String) (updater : Card → Card) :
    BoardStore :=
  { st with board :=
    { st.board with columns := st.board.columns.map fun column =>
        if column.id == columnId then
          { column with cards := column.cards.map fun card =>
              if card.id == cardId then
                (let next := updater card
                 normalizeCard
                  { id := next.id
                    title := next.title
                    description := next.description
                    checked := next.checked
                    dueDate := next.dueDate })
              else card }
        else column } }

def deleteCard (st : BoardStore) (columnId cardId : String) : BoardStore :=
  { st with board :=
    { st.board with columns := st.board.columns.map fun column =>
        if column.id == columnId then
          { column with cards := column.cards.filter (fun c => c.id != cardId) }
        else column } }

def clearColumnCards (st : BoardStore) (columnId : String) : Nat × BoardStore :=
  let count :=
    match st.board.columns.find? (fun c => c.id == columnId) with
    | some column => column.cards.length
    | none => 0
  if count == 0 then (0, st)
  else
    (count,
      { st with board :=
        { st.board with columns := st.board.columns.map fun entry =>
            if entry.id == columnId then { entry with cards := [] } else entry } })

def archiveColumnCards (st : BoardStore) (columnId : String) : Nat × BoardStore :=
  let cardsToArchive :=
    match st.board.columns.find? (fun c => c.id == columnId) with
    | some column => column.cards
    | none => []
  if cardsToArchive.isEmpty then (0, st)
  else
    (cardsToArchive.length,
      { st with board :=
        { st.board with
            columns := st.board.columns.map fun entry =>
              if entry.id == columnId then { entry with cards := [] } else entry
            archive := st.board.archive ++ cardsToArchive } })

/-- Model of `moveCard`.  In the source the same-column case operates
on one shared array: the removal happens first, the clamp runs against
the shrunk array, and then the index is decremented once more when the
removal index was before it.  Source and target columns alias exactly
when the two ids are equal, because both are located with `findIndex`
over the same column list. -/
def moveCard (st : BoardStore) (sourceColumnId cardId targetColumnId : String)
    (targetIndex : Int) : BoardStore :=
  match st.board.columns.findIdx? (fun c => c.id == sourceColumnId),
      st.board.columns.findIdx? (fun c => c.id == targetColumnId) with
  | some si, some ti =>
    match st.board.columns.get? si, st.board.columns.get? ti with
    | some sourceColumn, some targetColumn =>
      match sourceColumn.cards.findIdx? (fun c => c.id == cardId) with
      | none => st
      | some ci =>
        match sourceColumn.cards.get? ci with
        | none => st
        | some card =>
          if sourceColumnId == targetColumnId then
            (let removed := spliceRemove sourceColumn.cards ci
             let clamped := clampIdx targetIndex removed.length
             let insertIndex := if ci < clamped then clamped - 1 else clamped
             let newSource := { sourceColumn with cards := spliceInsert removed insertIndex card }
             { st with board :=
              { st.board with columns := st.board.columns.set si newSource } })
          else
            (let insertIndex := clampIdx targetIndex targetColumn.cards.length
             let newSource := { sourceColumn with cards := spliceRemove sourceColumn.cards ci }
             let newTarget := { targetColumn with cards := spliceInsert targetColumn.cards insertIndex card }
             { st with board :=
              { st.board with columns := (st.board.columns.set si newSource).set ti newTarget } })
    | _, _ => st
  | _, _ => st

def toMarkdown (st : BoardStore) : String :=
  serializeBoardMarkdown st.board

/-- Model of `getSnapshot`. -/
def getSnapshot (st : BoardStore) : BoardStoreSnapshot :=
  let query := jsToLower (jsTrim st.filter.query)
  let tag := normalizeTagFilter st.filter.tag
  let allTags := sortUnique
    ((st.board.columns.map (fun column => (column.cards.map (·.tags)).flatten)).flatten)
  if query == "" && tag == "" then
    let full := getBoard st
    { board := full
      filter := st.filter
      visibleColumns := full.columns
      allTags := allTags }
  else
    { board := getBoard st
      filter := st.filter
      visibleColumns := st.board.columns.map fun column =>
        { column with cards := column.cards.filter fun card =>
            (query == "" || jsIncludes card.searchText query) &&
              (tag == "" || card.tags.contains tag) }
      allTags := allTags }

/-- One store mutation call, for quantifying over arbitrary call
sequences.  `updateCard` carries the caller-supplied updater
function. -/
inductive StoreOp where
  | setBoard (board : BoardDocument)
  | setFilterQuery (query : String)
  | setFilterTag (tag : String)
  | clearFilter
  | setBoardMetadata (boardTitle boardDescription : String) (density : CardDensity)
  | addColumn (column : Column)
  | renameColumn (columnId title : String)
  | setColumnWipLimit (columnId : String) (limit : Option Int)
  | deleteColumn (columnId : String)
  | moveColumn (sourceColumnId : String) (targetIndex : Int)
  | addCard (columnId : String) (card : Card) (top : Bool)
  | insertCards (columnId : String) (cards : List Card) (before : Bool)
  | updateCard (columnId cardId : String) (updater : Card → Card)
  | deleteCard (columnId cardId : String)
  | clearColumnCards (columnId : String)
  | archiveColumnCards (columnId : String)
  | moveCard (sourceColumnId cardId targetColumnId : String) (targetIndex : Int)

def applyOp (st : BoardStore) : StoreOp → BoardStore
  | .setBoard b => setBoard st b
  | .setFilterQuery q => setFilterQuery st q
  | .setFilterTag t => setFilterTag st t
  | .clearFilter => clearFilter st
  | .setBoardMetadata t d dens => setBoardMetadata st t d dens
  | .addColumn c => addColumn st c
  | .renameColumn id t => renameColumn st id t
  | .setColumnWipLimit id l => setColumnWipLimit st id l
  | .deleteColumn id => deleteColumn st id
  | .moveColumn id i => moveColumn st id i
  | .addCard id c top => addCard st id c top
  | .insertCards id cs before => (insertCardsFromParsedLines st id cs before).snd
  | .updateCard cid k f => updateCard st cid k f
  | .deleteCard cid k => deleteCard st cid k
  | .clearColumnCards id => (clearColumnCards st id).snd
  | .archiveColumnCards id => (archiveColumnCards st id).snd
  | .moveCard s k t i => moveCard st s k t i

def applyOps (st : BoardStore) (ops : List StoreOp) : BoardStore :=
  ops.foldl applyOp st

/-! ## Editable card text (`src/model/cardContent.ts`) -/

structure ParsedCardContent where
  title : String
  description : String
deriving Repr, DecidableEq

/-- Model of `fromEditableCardText`: the first non-blank line becomes
the title (falling back to `Untitled`), the rest the description. -/
def fromEditableCardText (value : String) : ParsedCardContent :=
  let lines := splitLines (normalizeNewlines value)
  match lines.findIdx? (fun l => (jsTrim l).length > 0) with
  | none => { title := "Untitled", description := "" }
  | some i =>
    let t := jsTrim ((lines.get? i).getD "")
    { title := if t != "" then t else "Untitled"
      description := jsTrimEnd (String.intercalate "\n" (lines.drop (i + 1))) }

/-! ## Helper lemmas about trimming and normalization -/

theorem dropWhile_dropWhile (p : α → Bool) (l : List α) :
    (l.dropWhile p).dropWhile p = l.dropWhile p := by
  induction l with
  | nil => rfl
  | cons a t ih =>
    by_cases h : p a
    · simpa [List.dropWhile, h] using ih
    · simp [List.dropWhile, h]

theorem dropWhile_head_prop (p : α → Bool) (l : List α) :
    ∀ a t, l.dropWhile p = a :: t → p a = false := by
  induction l with
  | nil => intro a t h; simp at h
  | cons b t ih =>
    intro a u h
    by_cases hb : p b
    · exact ih a u (by simpa [List.dropWhile, hb] using h)
    · rw [List.dropWhile_cons_of_neg hb] at h
      cases h
      simpa using hb

theorem dropWhile_of_head_false (p : α → Bool) :
    ∀ l : List α, (∀ a t, l = a :: t → p a = false) → l.dropWhile p = l := by
  intro l h
  match l with
  | [] => rfl
  | a :: t => rw [List.dropWhile_cons_of_neg (by simp [h a t rfl])]

/-- Trimming is idempotent. -/
theorem jsTrim_idem (s : String) : jsTrim (jsTrim s) = jsTrim s := by
  unfold jsTrim
  set p := isJsWs with hp
  set A := s.data.dropWhile p with hA
  set D := A.reverse.dropWhile p with hD
  have hdata : (String.mk (D.reverse)).data = D.reverse := rfl
  rw [hdata]
  have hpref : D.reverse <+: A := by
    have hsuf : D <:+ A.reverse := List.dropWhile_suffix p
    have h2 : D.reverse <+: (A.reverse).reverse := List.reverse_prefix.mpr hsuf
    simpa using h2
  have hBdrop : (D.reverse).dropWhile p = D.reverse := by
    apply dropWhile_of_head_false
    intro a t habt
    rcases hpref with ⟨rest, hrest⟩
    rw [habt] at hrest
    exact dropWhile_head_prop p s.data a (t ++ rest) (by simpa using hrest.symm)
  rw [hBdrop]
  have : (D.reverse).reverse.dropWhile p = D := by
    rw [List.reverse_reverse, hD, dropWhile_dropWhile]
  rw [this]

theorem jsTrim_empty : jsTrim "" = "" := rfl

theorem dueShape_empty : dueShape "" = false := rfl

/-- Due-date normalization is idempotent. -/
theorem normalizeDueDate_idem (x : Option String) :
    normalizeDueDate (normalizeDueDate x) = normalizeDueDate x := by
  match x with
  | none => rfl
  | some v =>
    unfold normalizeDueDate
    by_cases hv : v == ""
    · simp [hv]
    · simp only [hv, Bool.false_eq_true, if_false]
      by_cases hshape : dueShape (jsTrim v)
      · simp only [hshape, if_pos trivial, if_true]
        have hne : (jsTrim v == "") = false := by
          by_cases h : jsTrim v = ""
          · rw [h] at hshape; exact absurd hshape (by simp [dueShape_empty])
          · simpa using h
        simp [hne, jsTrim_idem, hshape]
      · simp [hshape]

/-- A card value that is a fixed point of `normalizeCard`. -/
def CardNormalized (c : Card) : Prop :=
  c = normalizeCard
    { id := c.id, title := c.title, description := c.description,
      checked := c.checked, dueDate := c.dueDate }

/-- The derived-field consistency property of claim C5: `tags` is the
tag extraction of `title ++ "\n" ++ description` and `searchText` the
lowercase join of title, description, tags and due date. -/
def DerivedConsistent (c : Card) : Prop :=
  c.tags = extractTags (c.title ++ "\n" ++ c.description) ∧
    c.searchText = buildSearchText c.title c.description c.tags c.dueDate

/-- All cards of a document: the columns in order, then the archive. -/
def boardCards (b : BoardDocument) : List Card :=
  (b.columns.map (fun c => c.cards)).flatten ++ b.archive

def NormalizedBoard (b : BoardDocument) : Prop :=
  ∀ c ∈ boardCards b, CardNormalized c

theorem normalizeCard_normalized (input : CardInput) :
    CardNormalized (normalizeCard input) := by
  unfold CardNormalized normalizeCard
  simp [normalizeDueDate_idem]

theorem normalized_derivedConsistent (c : Card) (h : CardNormalized c) :
    DerivedConsistent c := by
  rw [CardNormalized] at h
  have ht := congrArg Card.tags h
  simp only [normalizeCard] at ht
  have hs := congrArg Card.searchText h
  simp only [normalizeCard] at hs
  have hd := congrArg Card.dueDate h
  simp only [normalizeCard] at hd
  exact ⟨ht, by rw [hs, ht, ← hd]⟩

theorem cloneCard_normalized (c : Card) : CardNormalized (cloneCard c) :=
  normalizeCard_normalized _

theorem cloneBoard_normalized (b : BoardDocument) : NormalizedBoard (cloneBoard b) := by
  intro c hc
  unfold boardCards cloneBoard at hc
  simp only [List.mem_append, List.mem_flatten, List.mem_map] at hc
  rcases hc with ⟨l, ⟨col, ⟨col0, _, hcol0⟩, hl⟩, hcl⟩ | ⟨c0, _, hc0⟩
  · subst hcol0
    simp only [← hl] at hcl
    rcases List.mem_map.mp hcl with ⟨c0, _, hc0⟩
    exact hc0 ▸ cloneCard_normalized c0
  · exact hc0 ▸ cloneCard_normalized c0

/-! ## Concrete fixtures used by witnesses and counterexamples -/

/-- A plain card with the given id and title, built through
`normalizeCard` as every in-repo caller does. -/
def mkPlainCard (i t : String) : Card :=
  normalizeCard { id := i, title := t, description := "", checked := false, dueDate := none }

/-- A one-column board with cards A, B, C. -/
def laneBoard3 : BoardDocument :=
  { boardTitle := "Board"
    boardDescription := ""
    density := .normal
    columns := [{ id := "lane", title := "Lane", wipLimit := none,
                  cards := [mkPlainCard "A" "A", mkPlainCard "B" "B", mkPlainCard "C" "C"] }]
    archive := [] }

def laneStore3 : BoardStore := mkStore laneBoard3

/-- A parseable board whose only card carries two `due::` lines; the
parser keeps the second one as description text while the serializer
emits the description before the due line, so every parse/serialize
pass swaps the two lines. -/
def dueSwapBoardText : String :=
  "---\nkanban: true\ncolumns: []\n---\n## [a] A\n\n- [ ] [c1] T\n  due:: 2020-01-01\n  due:: 2030-01-01\n"

/-- One parse/serialize pass; `none` when the text does not parse. -/
def roundtripOnce (text : String) : Option String :=
  (parseBoardMarkdown text).toOption.map serializeBoardMarkdown

/-- A parseable board containing a card line with a blank title part. -/
def blankTitleBoardText : String :=
  "---\nkanban: true\ncolumns: []\n---\n## [a] A\n\n- [ ] [c1] \n"

/-! ## Claim theorems -/

set_option maxRecDepth 40000

/-- C1 (code_bug): round-trip idempotence fails on `dueSwapBoardText`:
the text parses (first conjunct), yet the serialized result of the
second parse/serialize pass differs from the first —
`serialize(parse(serialize(parse(x)))) ≠ serialize(parse(x))`, and the
two texts keep swapping on every further pass instead of reaching a
fixed point. -/
theorem roundtrip_second_pass_diverges :
    (roundtripOnce dueSwapBoardText).isSome = true ∧
      (roundtripOnce dueSwapBoardText).bind roundtripOnce ≠ roundtripOnce dueSwapBoardText :=
  ⟨by decide, by decide⟩

/-- C2 (code_bug): with cards `[A, B, C]`, `moveCard(lane, A, lane, 3)`
produces `[B, A, C]`, not the `[B, C, A]` required by the claim and by
the repository's own store test: the source clamps the target index
against the array that already had the card removed and then decrements
it again. -/
theorem moveCard_to_bottom_mismatch :
    ((moveCard laneStore3 "lane" "A" "lane" 3).board.columns.map
        (fun (c : Column) => c.cards.map (fun (k : Card) => k.id))) = [["B", "A", "C"]] ∧
      [["B", "A", "C"]] ≠ [["B", "C", "A"]] :=
  ⟨by decide, by decide⟩

/-- C6 (confirmed): due-date validation is pattern-only.  The
syntactically valid but calendar-invalid `2026-02-30` is kept; a value
that does not match `YYYY-MM-DD` after trimming becomes `none`; and in
general `normalizeCard` keeps exactly the trimmed value when the
pattern matches and drops it otherwise. -/
theorem dueDate_pattern_only_validation :
    ((normalizeCard { id := "c", title := "T", description := "", checked := false,
                      dueDate := some "2026-02-30" }).dueDate = some "2026-02-30") ∧
    ((normalizeCard { id := "c", title := "T", description := "", checked := false,
                      dueDate := some "02-20-2026" }).dueDate = none) ∧
    (∀ input : CardInput, ∀ s, input.dueDate = some s → dueShape (jsTrim s) = false →
        (normalizeCard input).dueDate = none) ∧
    (∀ input : CardInput, ∀ s, input.dueDate = some s → dueShape (jsTrim s) = true →
        (normalizeCard input).dueDate = some (jsTrim s)) := by
  refine ⟨by decide, by decide, ?_, ?_⟩
  · intro input s hs hshape
    by_cases h0 : s = ""
    · simp [normalizeCard, normalizeDueDate, hs, h0]
    · simp [normalizeCard, normalizeDueDate, hs, h0, hshape]
  · intro input s hs hshape
    by_cases h0 : s = ""
    · rw [h0] at hshape
      exact absurd hshape (by simp [jsTrim_empty, dueShape_empty])
    · simp [normalizeCard, normalizeDueDate, hs, h0, hshape]

/-- Witness for C6: the general clauses applied at concrete inputs. -/
theorem dueDate_pattern_only_validation_witness :
    ((normalizeCard { id := "c", title := "T", description := "", checked := false,
                      dueDate := some "not-a-date" }).dueDate = none) ∧
    ((normalizeCard { id := "c", title := "T", description := "", checked := false,
                      dueDate := some " 2030-12-31 " }).dueDate = some (jsTrim " 2030-12-31 ")) :=
  ⟨dueDate_pattern_only_validation.2.2.1 _ "not-a-date" rfl (by decide),
   dueDate_pattern_only_validation.2.2.2 _ " 2030-12-31 " rfl (by decide)⟩

/-- C8 counterexample: parsing a board whose card line is
`- [ ] [c1] ` yields a document whose single card has the empty title;
no placeholder coercion happens in the codec, refuting the claim that
every card anywhere has a non-empty trimmed title. -/
theorem parsed_blank_title_counterexample :
    ((parseBoardMarkdown blankTitleBoardText).toOption.map
        (fun d => (boardCards d).map (fun (k : Card) => k.title))) = some [""] := by
  decide

/-- C8 (corrected): the codec preserves blank card titles (the parsed
example keeps the empty title), while the `Untitled` placeholder
coercion lives only in the editable-card-text conversion: every title
produced by `fromEditableCardText` is non-empty and trim-stable. -/
theorem title_placeholder_only_in_editor :
    (((parseBoardMarkdown blankTitleBoardText).toOption.map
        (fun d => (boardCards d).map (fun (k : Card) => k.title))) = some [""]) ∧
    (∀ s : String, (fromEditableCardText s).title ≠ "" ∧
        jsTrim (fromEditableCardText s).title = (fromEditableCardText s).title) := by
  refine ⟨by decide, ?_⟩
  intro s
  unfold fromEditableCardText
  dsimp only
  cases hidx : (splitLines (normalizeNewlines s)).findIdx? (fun l => (jsTrim l).length > 0) with
  | none =>
    constructor
    · show "Untitled" ≠ ""
      decide
    · show jsTrim "Untitled" = "Untitled"
      decide
  | some i =>
    by_cases ht : jsTrim (((splitLines (normalizeNewlines s)).get? i).getD "") = ""
    · have hcond : ((jsTrim (((splitLines (normalizeNewlines s)).get? i).getD "")) != "") = false := by
        rw [ht]
        decide
      simp only [hcond, Bool.false_eq_true, if_false]
      constructor
      · show "Untitled" ≠ ""
        decide
      · show jsTrim "Untitled" = "Untitled"
        decide
    · have hcond : ((jsTrim (((splitLines (normalizeNewlines s)).get? i).getD "")) != "") = true :=
        bne_iff_ne.mpr ht
      simp only [hcond, if_true]
      exact ⟨ht, jsTrim_idem _⟩

/-- C9 counterexample: inserting one card into a column id that does
not exist returns count 1 even though the document is unchanged, so
`insertCardsFromParsedLines` does not return the number of cards
actually inserted into the document. -/
theorem insert_unknown_column_count_counterexample :
    (insertCardsFromParsedLines laneStore3 "missing" [mkPlainCard "z" "Z"] true).fst = 1 ∧
      (insertCardsFromParsedLines laneStore3 "missing" [mkPlainCard "z" "Z"] true).snd.board =
        laneStore3.board ∧
      (1 : Nat) ≠ 0 :=
  ⟨by decide, by decide, by decide⟩

/-- C10 (confirmed): blank titles never overwrite stored titles.  A
whitespace-only column rename leaves the board untouched; a non-blank
rename stores the trimmed title on the matching column; a
whitespace-only board title in `setBoardMetadata` keeps the previous
board title while the trimmed description and the density are still
applied. -/
theorem blank_titles_never_overwrite (st : BoardStore)
    (columnId title boardTitle boardDescription : String) (density : CardDensity) :
    (jsTrim title = "" → (renameColumn st columnId title).board = st.board) ∧
    (jsTrim title ≠ "" → (renameColumn st columnId title).board.columns =
        st.board.columns.map
          (fun col => if col.id == columnId then { col with title := jsTrim title } else col)) ∧
    (jsTrim boardTitle = "" →
        (setBoardMetadata st boardTitle boardDescription density).board.boardTitle =
          st.board.boardTitle) ∧
    ((setBoardMetadata st boardTitle boardDescription density).board.boardDescription =
        jsTrim boardDescription) ∧
    ((setBoardMetadata st boardTitle boardDescription density).board.density = density) := by
  refine ⟨?_, ?_, ?_, ?_, ?_⟩
  · intro h
    unfold renameColumn
    have hmap : (st.board.columns.map fun column =>
        if column.id == columnId then
          { column with title := if jsTrim title != "" then jsTrim title else column.title }
        else column) = st.board.columns := by
      have hcongr : ∀ col ∈ st.board.columns,
          (if col.id == columnId then
            { col with title := if jsTrim title != "" then jsTrim title else col.title }
          else col) = col := by
        intro col _
        by_cases hc : col.id == columnId <;> simp [hc, h]
      calc (st.board.columns.map fun column =>
            if column.id == columnId then
              { column with title := if jsTrim title != "" then jsTrim title else column.title }
            else column)
          = st.board.columns.map id := List.map_congr_left hcongr
        _ = st.board.columns := List.map_id _
    rw [hmap]
  · intro h
    unfold renameColumn
    apply List.map_congr_left
    intro col _
    by_cases hc : col.id == columnId <;> simp [hc, h]
  · intro h
    simp [setBoardMetadata, h]
  · simp [setBoardMetadata]
  · simp [setBoardMetadata]

/-- Witness for C10 at a concrete store: a whitespace-only rename and a
whitespace-only board title both leave the stored titles unchanged. -/
theorem blank_titles_never_overwrite_witness :
    (renameColumn laneStore3 "lane" "  ").board = laneStore3.board ∧
      (setBoardMetadata laneStore3 " " " desc " CardDensity.compact).board.boardTitle =
        laneStore3.board.boardTitle :=
  ⟨(blank_titles_never_overwrite laneStore3 "lane" "  " " " " desc " .compact).1 (by decide),
   (blank_titles_never_overwrite laneStore3 "lane" "  " " " " desc " .compact).2.2.1 (by decide)⟩

theorem map_id_filter (body : List ParsedColumn) (p : String → Bool) :
    ((body.filter (fun bc => p bc.id)).map (fun bc => bc.id)) =
      (body.map (fun bc => bc.id)).filter p := by
  induction body with
  | nil => rfl
  | cons b t ih => by_cases h : p b.id <;> simp [List.filter, h, ih]

/-- C4 (confirmed): the merged column order is all header-declared
columns in header order, each taking its cards from the matching body
section (empty when none exists; a duplicated body id resolves to its
last section, as the `Map` construction does), followed by the body
sections not declared in the header, in body order and with no WIP
limit; in particular header `[b, a]` with body `[a, c]` yields
`[b, a, c]`. -/
theorem mergeColumns_header_order_then_extras (defs : List ColumnDefinition)
    (body : List ParsedColumn) :
    ((mergeColumns defs body).map (fun (c : Column) => c.id) =
        defs.map (fun d => d.id) ++
          (body.map (fun bc => bc.id)).filter
            (fun i => !((defs.map (fun d => d.id)).contains i))) ∧
    (∀ i : Nat, ∀ h : i < defs.length,
        ((mergeColumns defs body)[i]?).map (fun (c : Column) => c.cards) =
          some (((bodyColumnById body (defs.get ⟨i, h⟩).id).map
            (fun bc => bc.cards)).getD [])) ∧
    ((mergeColumns defs body).drop defs.length =
        (body.filter (fun bc => !((defs.map (fun d => d.id)).contains bc.id))).map
          (fun bc => { id := bc.id, title := bc.title, wipLimit := none, cards := bc.cards })) ∧
    ((mergeColumns [{ id := "b", title := "B", wipLimit := none },
                    { id := "a", title := "A", wipLimit := none }]
        [{ id := "a", title := "TA", cards := [mkPlainCard "x" "In A"] },
         { id := "c", title := "TC", cards := [mkPlainCard "y" "In C"] }]).map
          (fun (c : Column) => (c.id, c.cards.map (fun (k : Card) => k.id))) =
      [("b", []), ("a", ["x"]), ("c", ["y"])]) := by
  refine ⟨?_, ?_, ?_, by decide⟩
  · unfold mergeColumns
    rw [List.map_append, List.map_map, List.map_map]
    have h1 : ((fun (c : Column) => c.id) ∘ fun d =>
        ({ id := d.id
           title :=
             if d.title != "" then d.title
             else
               match bodyColumnById body d.id with
               | some bc => if bc.title != "" then bc.title else "Untitled"
               | none => "Untitled"
           wipLimit := d.wipLimit
           cards :=
             match bodyColumnById body d.id with
             | some bc => bc.cards
             | none => [] } : Column)) = fun (d : ColumnDefinition) => d.id := rfl
    have h2 : ((fun (c : Column) => c.id) ∘ fun (bc : ParsedColumn) =>
        ({ id := bc.id, title := bc.title, wipLimit := none, cards := bc.cards } : Column)) =
          fun (bc : ParsedColumn) => bc.id := rfl
    rw [h1, h2, map_id_filter body (fun i => !((defs.map (fun d => d.id)).contains i))]
  · intro i h
    unfold mergeColumns
    have hlen : i < (defs.map (fun d =>
        ({ id := d.id
           title :=
             if d.title != "" then d.title
             else
               match bodyColumnById body d.id with
               | some bc => if bc.title != "" then bc.title else "Untitled"
               | none => "Untitled"
           wipLimit := d.wipLimit
           cards :=
             match bodyColumnById body d.id with
             | some bc => bc.cards
             | none => [] } : Column))).length := by
      simpa using h
    rw [List.getElem?_append_left hlen, List.getElem?_map]
    rw [List.getElem?_eq_getElem h]
    cases hb : bodyColumnById body defs[i].id <;> simp [hb]
  · unfold mergeColumns
    have hlen : defs.length = (defs.map (fun d =>
        ({ id := d.id
           title :=
             if d.title != "" then d.title
             else
               match bodyColumnById body d.id with
               | some bc => if bc.title != "" then bc.title else "Untitled"
               | none => "Untitled"
           wipLimit := d.wipLimit
           cards :=
             match bodyColumnById body d.id with
             | some bc => bc.cards
             | none => [] } : Column))).length := by simp
    rw [hlen, List.drop_left]

/-- Witness for C4: the cards clause applied at the concrete header
`[b, a]` / body `[a, c]` example. -/
theorem mergeColumns_header_order_then_extras_witness :
    ((mergeColumns [{ id := "b", title := "B", wipLimit := none },
                    { id := "a", title := "A", wipLimit := none }]
        [{ id := "a", title := "TA", cards := [mkPlainCard "x" "In A"] },
         { id := "c", title := "TC", cards := [mkPlainCard "y" "In C"] }])[0]?).map
        (fun (c : Column) => c.cards) =
      some (((bodyColumnById
        [{ id := "a", title := "TA", cards := [mkPlainCard "x" "In A"] },
         { id := "c", title := "TC", cards := [mkPlainCard "y" "In C"] }] "b").map
          (fun bc => bc.cards)).getD []) :=
  (mergeColumns_header_order_then_extras _ _).2.1 0 (by decide)

theorem map_if_id_eq_self (cols : List Column) (columnId : String) (g : Column → Column)
    (hcol : ∀ col ∈ cols, col.id ≠ columnId) :
    (cols.map fun col => if col.id == columnId then g col else col) = cols := by
  have hcongr : ∀ col ∈ cols, (if col.id == columnId then g col else col) = col := by
    intro col hc
    rw [if_neg]
    simp [hcol col hc]
  calc (cols.map fun col => if col.id == columnId then g col else col)
      = cols.map id := List.map_congr_left hcongr
    _ = cols := List.map_id _

theorem findIdx?_none_of_unknown (cols : List Column) (columnId : String)
    (hcol : ∀ col ∈ cols, col.id ≠ columnId) :
    cols.findIdx? (fun c => c.id == columnId) = none :=
  List.findIdx?_eq_none_iff.mpr (fun col hc => by simp [hcol col hc])

theorem find?_none_of_unknown (cols : List Column) (columnId : String)
    (hcol : ∀ col ∈ cols, col.id ≠ columnId) :
    cols.find? (fun c => c.id == columnId) = none :=
  List.find?_eq_none.mpr (fun col hc => by simp [hcol col hc])

/-- C9 (corrected): mutations referencing an unknown column or card id
leave the document unchanged and never throw, and
`archiveColumnCards`/`clearColumnCards` report exactly the found
column's card count (0 when the column is unknown or empty) — but
`insertCardsFromParsedLines` reports `cards.length` whenever the input
batch is non-empty, even when the column id is unknown and nothing was
inserted; it returns 0 exactly when the input batch is empty. -/
theorem unknown_id_mutations_noops_and_counts (st : BoardStore)
    (columnId cardId sourceColumnId targetColumnId title : String) (idx : Int)
    (cards : List Card) (before : Bool) :
    ((∀ col ∈ st.board.columns, col.id ≠ columnId) →
      (renameColumn st columnId title).board = st.board ∧
      (deleteColumn st columnId).board = st.board ∧
      (moveColumn st columnId idx).board = st.board ∧
      (moveCard st columnId cardId columnId idx).board = st.board ∧
      (insertCardsFromParsedLines st columnId cards before).snd.board = st.board ∧
      (archiveColumnCards st columnId).fst = 0 ∧
      (clearColumnCards st columnId).fst = 0) ∧
    ((∀ col ∈ st.board.columns, ∀ c ∈ col.cards, c.id ≠ cardId) →
      (moveCard st sourceColumnId cardId targetColumnId idx).board = st.board ∧
      (deleteCard st columnId cardId).board = st.board) ∧
    ((insertCardsFromParsedLines st columnId cards before).fst =
      if cards.isEmpty then 0 else cards.length) ∧
    ((archiveColumnCards st columnId).fst =
      ((st.board.columns.find? (fun c => c.id == columnId)).map
        (fun c => c.cards.length)).getD 0) ∧
    ((clearColumnCards st columnId).fst =
      ((st.board.columns.find? (fun c => c.id == columnId)).map
        (fun c => c.cards.length)).getD 0) := by
  refine ⟨?_, ?_, ?_, ?_, ?_⟩
  · intro hcol
    have hidx := findIdx?_none_of_unknown st.board.columns columnId hcol
    have hfind := find?_none_of_unknown st.board.columns columnId hcol
    refine ⟨?_, ?_, ?_, ?_, ?_, ?_, ?_⟩
    · unfold renameColumn
      rw [map_if_id_eq_self st.board.columns columnId _ hcol]
    · unfold deleteColumn
      have : st.board.columns.filter (fun c => c.id != columnId) = st.board.columns :=
        List.filter_eq_self.mpr (fun col hc => by simp [hcol col hc])
      rw [this]
    · unfold moveColumn
      rw [hidx]
    · unfold moveCard
      rw [hidx]
    · unfold insertCardsFromParsedLines
      by_cases hc : cards.isEmpty
      · rw [if_pos hc]
      · rw [if_neg hc]
        show ({ st with board :=
          { st.board with columns := st.board.columns.map fun (column : Column) =>
              if column.id == columnId then
                { column with cards :=
                    if before then cards ++ column.cards else column.cards ++ cards }
              else column } }).board = st.board
        rw [map_if_id_eq_self st.board.columns columnId _ hcol]
    · unfold archiveColumnCards
      rw [hfind]
      rfl
    · unfold clearColumnCards
      rw [hfind]
      rfl
  · intro hcard
    constructor
    · cases hsi : st.board.columns.findIdx? (fun c => c.id == sourceColumnId) with
      | none =>
        unfold moveCard
        rw [hsi]
      | some si =>
        cases hti : st.board.columns.findIdx? (fun c => c.id == targetColumnId) with
        | none =>
          unfold moveCard
          rw [hsi, hti]
        | some ti =>
          cases hgs : st.board.columns.get? si with
          | none =>
            unfold moveCard
            simp only [hsi, hti, hgs]
          | some sourceColumn =>
            cases hgt : st.board.columns.get? ti with
            | none =>
              unfold moveCard
              simp only [hsi, hti, hgs, hgt]
            | some targetColumn =>
              have hcards : sourceColumn.cards.findIdx? (fun c => c.id == cardId) = none :=
                List.findIdx?_eq_none_iff.mpr (fun c hcm => by
                  simp [hcard sourceColumn (List.get?_mem hgs) c hcm])
              unfold moveCard
              simp only [hsi, hti, hgs, hgt, hcards]
    · unfold deleteCard
      have hcongr : ∀ col ∈ st.board.columns,
          (if col.id == columnId then
            { col with cards := col.cards.filter (fun c => c.id != cardId) }
          else col) = col := by
        intro col hc
        by_cases h : col.id == columnId
        · rw [if_pos h]
          have : col.cards.filter (fun c => c.id != cardId) = col.cards :=
            List.filter_eq_self.mpr (fun c hcm => by simp [hcard col hc c hcm])
          rw [this]
        · rw [if_neg h]
      have : (st.board.columns.map fun col =>
          if col.id == columnId then
            { col with cards := col.cards.filter (fun c => c.id != cardId) }
          else col) = st.board.columns := by
        calc _ = st.board.columns.map id := List.map_congr_left hcongr
          _ = st.board.columns := List.map_id _
      rw [this]
  · unfold insertCardsFromParsedLines
    by_cases hc : cards.isEmpty <;> simp [hc]
  · unfold archiveColumnCards
    cases hf : st.board.columns.find? (fun c => c.id == columnId) with
    | none => rfl
    | some c =>
      cases hcs : c.cards with
      | nil => simp [hcs]
      | cons a t => simp [hcs]
  · unfold clearColumnCards
    cases hf : st.board.columns.find? (fun c => c.id == columnId) with
    | none => rfl
    | some c =>
      cases hcs : c.cards with
      | nil => simp [hcs]
      | cons a t => simp [hcs]

/-- Witness for C9: at a concrete store, a rename and a move targeting
the unknown column id `missing` leave the board unchanged, archiving
`missing` reports 0, and moving the unknown card id `nocard` is a
no-op. -/
theorem unknown_id_mutations_noops_and_counts_witness :
    (renameColumn laneStore3 "missing" "X").board = laneStore3.board ∧
      (archiveColumnCards laneStore3 "missing").fst = 0 ∧
      (moveCard laneStore3 "lane" "nocard" "lane" 0).board = laneStore3.board :=
  ⟨((unknown_id_mutations_noops_and_counts laneStore3 "missing" "k" "s" "t" "X" 0 [] true).1
      (by decide)).1,
   ((unknown_id_mutations_noops_and_counts laneStore3 "missing" "k" "s" "t" "X" 0 [] true).1
      (by decide)).2.2.2.2.2.1,
   ((unknown_id_mutations_noops_and_counts laneStore3 "missing" "nocard" "lane" "lane" "X" 0 []
      true).2.1 (by decide)).1⟩

theorem getSnapshot_board (st : BoardStore) : (getSnapshot st).board = getBoard st := by
  unfold getSnapshot
  dsimp only
  split <;> rfl

theorem getSnapshot_allTags (st : BoardStore) :
    (getSnapshot st).allTags = sortUnique
      ((st.board.columns.map (fun column => (column.cards.map (·.tags)).flatten)).flatten) := by
  unfold getSnapshot
  dsimp only
  split <;> rfl

/-- C7 (confirmed): filter changes never touch the canonical document.
Setting the query or the tag leaves `getBoard` unchanged; the snapshot
still carries the same document and tag catalogue; with both filter
fields empty the visible columns are exactly the full column list; and
otherwise a card is visible in its (position-preserving) column iff its
search text contains the trimmed lowercased query (when non-empty) and
its tags contain the normalized filter tag (when non-empty). -/
theorem filter_changes_preserve_document (st : BoardStore) (q t : String) :
    (getBoard (setFilterQuery st q) = getBoard st) ∧
    (getBoard (setFilterTag st t) = getBoard st) ∧
    ((getSnapshot (setFilterQuery st q)).board = getBoard st) ∧
    ((getSnapshot (setFilterQuery st q)).allTags = (getSnapshot st).allTags) ∧
    (jsToLower (jsTrim st.filter.query) = "" → normalizeTagFilter st.filter.tag = "" →
      (getSnapshot st).visibleColumns = (getBoard st).columns) ∧
    (¬(jsToLower (jsTrim st.filter.query) = "" ∧ normalizeTagFilter st.filter.tag = "") →
      ((getSnapshot st).visibleColumns.length = st.board.columns.length ∧
        ∀ i : Nat, ∀ col vcol : Column, st.board.columns[i]? = some col →
          (getSnapshot st).visibleColumns[i]? = some vcol →
          vcol.id = col.id ∧
          ∀ card : Card, card ∈ vcol.cards ↔
            (card ∈ col.cards ∧
              (jsToLower (jsTrim st.filter.query) ≠ "" →
                jsIncludes card.searchText (jsToLower (jsTrim st.filter.query)) = true) ∧
              (normalizeTagFilter st.filter.tag ≠ "" →
                card.tags.contains (normalizeTagFilter st.filter.tag) = true)))) := by
  refine ⟨rfl, rfl, getSnapshot_board _, ?_, ?_, ?_⟩
  · rw [getSnapshot_allTags, getSnapshot_allTags]
    rfl
  · intro h1 h2
    unfold getSnapshot
    dsimp only
    split
    · rfl
    · next hcond => exact absurd (by simp [h1, h2]) hcond
  · intro hne
    have hvis : (getSnapshot st).visibleColumns = st.board.columns.map fun column =>
        { column with cards := column.cards.filter fun card =>
            (jsToLower (jsTrim st.filter.query) == "" ||
                jsIncludes card.searchText (jsToLower (jsTrim st.filter.query))) &&
              (normalizeTagFilter st.filter.tag == "" ||
                card.tags.contains (normalizeTagFilter st.filter.tag)) } := by
      unfold getSnapshot
      dsimp only
      split
      · next hcond =>
        rw [Bool.and_eq_true] at hcond
        exact absurd ⟨by simpa using hcond.1, by simpa using hcond.2⟩ hne
      · rfl
    constructor
    · rw [hvis, List.length_map]
    · intro i col vcol hcol hvcol
      rw [hvis, List.getElem?_map, hcol] at hvcol
      cases hvcol
      refine ⟨rfl, ?_⟩
      intro card
      rw [List.mem_filter]
      constructor
      · rintro ⟨hmem, hpred⟩
        rw [Bool.and_eq_true, Bool.or_eq_true, Bool.or_eq_true] at hpred
        refine ⟨hmem, ?_, ?_⟩
        · intro hq
          rcases hpred.1 with h | h
          · exact absurd (by simpa using h) hq
          · exact h
        · intro ht
          rcases hpred.2 with h | h
          · exact absurd (by simpa using h) ht
          · exact h
      · rintro ⟨hmem, hq, ht⟩
        refine ⟨hmem, ?_⟩
        rw [Bool.and_eq_true, Bool.or_eq_true, Bool.or_eq_true]
        constructor
        · by_cases h : jsToLower (jsTrim st.filter.query) = ""
          · exact Or.inl (by simpa using h)
          · exact Or.inr (hq h)
        · by_cases h : normalizeTagFilter st.filter.tag = ""
          · exact Or.inl (by simpa using h)
          · exact Or.inr (ht h)

/-- Witness for C7: at a concrete store, both empty-filter and
non-empty-filter clauses applied. -/
theorem filter_changes_preserve_document_witness :
    ((getSnapshot laneStore3).visibleColumns = (getBoard laneStore3).columns) ∧
      ((getSnapshot (setFilterQuery laneStore3 "b")).visibleColumns.length =
        (setFilterQuery laneStore3 "b").board.columns.length) :=
  ⟨(filter_changes_preserve_document laneStore3 "" "").2.2.2.2.1 (by decide) (by decide),
   ((filter_changes_preserve_document (setFilterQuery laneStore3 "b") "" "").2.2.2.2.2
      (by decide)).1⟩

/-- C3 (confirmed): `parseBoardMarkdown` fails exactly when (a) the
text has no recognizable frontmatter block, (b) the header does not
decode, (c) the decoded header is not an object/array value, or (d) the
`kanban` marker is missing or not exactly `true`; each case carries its
own message (all four messages are pairwise distinct, so callers can
tell "not a board" from "malformed board"), and in every other case a
`BoardDocument` is returned without throwing. -/
theorem parse_error_characterization (content : String) :
    (splitFm content = none →
      parseBoardMarkdown content =
        .error { message := "Kanban board is missing YAML frontmatter." }) ∧
    (∀ inner body, splitFm content = some (inner, body) →
      (parseYamlModel inner = none →
        parseBoardMarkdown content =
          .error { message := "Kanban frontmatter could not be parsed as YAML." }) ∧
      (∀ y, parseYamlModel inner = some y →
        (y.isObjLike = false →
          parseBoardMarkdown content =
            .error { message := "Kanban frontmatter must be a YAML object." }) ∧
        (y.isObjLike = true → y.get? "kanban" ≠ some (.boolV true) →
          parseBoardMarkdown content =
            .error { message := "File frontmatter is missing `kanban: true`." }) ∧
        (y.isObjLike = true → y.get? "kanban" = some (.boolV true) →
          ∃ d, parseBoardMarkdown content = .ok d))) ∧
    (["Kanban board is missing YAML frontmatter.",
      "Kanban frontmatter could not be parsed as YAML.",
      "Kanban frontmatter must be a YAML object.",
      "File frontmatter is missing `kanban: true`."].Pairwise (· ≠ ·)) := by
  refine ⟨?_, ?_, by decide⟩
  · intro hsplit
    unfold parseBoardMarkdown splitFrontmatter
    rw [hsplit]
  · intro inner body hsplit
    constructor
    · intro hyaml
      unfold parseBoardMarkdown splitFrontmatter
      simp only [hsplit, hyaml]
    · intro y hyaml
      refine ⟨?_, ?_, ?_⟩
      · intro hobj
        unfold parseBoardMarkdown splitFrontmatter
        simp only [hsplit, hyaml, hobj, Bool.false_eq_true, if_false]
      · intro hobj hk
        unfold parseBoardMarkdown splitFrontmatter
        simp only [hsplit, hyaml, hobj, if_true]
      · intro hobj hk
        unfold parseBoardMarkdown splitFrontmatter
        simp only [hsplit, hyaml, hobj, if_true, hk]
        split <;> exact ⟨_, rfl⟩

/-- Witness for C3: the three structural failure clauses and the
marker clause, each at a concrete input. -/
theorem parse_error_characterization_witness :
    (parseBoardMarkdown "no frontmatter here" =
        .error { message := "Kanban board is missing YAML frontmatter." }) ∧
      (parseBoardMarkdown "---\nplain scalar\n---\n" =
        .error { message := "Kanban frontmatter must be a YAML object." }) ∧
      (parseBoardMarkdown "---\nboardTitle: Not a board\n---\n" =
        .error { message := "File frontmatter is missing `kanban: true`." }) :=
  ⟨(parse_error_characterization "no frontmatter here").1 (by decide),
   ((((parse_error_characterization "---\nplain scalar\n---\n").2.1 "plain scalar" ""
        (by decide)).2 (Yaml.strV "plain scalar") rfl).1 rfl),
   ((((parse_error_characterization "---\nboardTitle: Not a board\n---\n").2.1
        "boardTitle: Not a board" "" (by decide)).2
      (Yaml.objV [("boardTitle", Yaml.strV "Not a board")]) rfl).2.1 rfl
      (fun h => nomatch h))⟩

theorem mem_boardCards {b : BoardDocument} {c : Card} :
    c ∈ boardCards b ↔ (∃ col, col ∈ b.columns ∧ c ∈ col.cards) ∨ c ∈ b.archive := by
  unfold boardCards
  simp only [List.mem_append, List.mem_flatten, List.mem_map]
  constructor
  · rintro (⟨l, ⟨col, hcol, rfl⟩, hc⟩ | h)
    · exact Or.inl ⟨col, hcol, hc⟩
    · exact Or.inr h
  · rintro (⟨col, hcol, hc⟩ | h)
    · exact Or.inl ⟨col.cards, ⟨col, hcol, rfl⟩, hc⟩
    · exact Or.inr h

theorem normalizedBoard_iff {b : BoardDocument} :
    NormalizedBoard b ↔
      ((∀ col ∈ b.columns, ∀ c ∈ col.cards, CardNormalized c) ∧
        ∀ c ∈ b.archive, CardNormalized c) := by
  unfold NormalizedBoard
  constructor
  · intro h
    exact ⟨fun col hcol c hc => h c (mem_boardCards.mpr (Or.inl ⟨col, hcol, hc⟩)),
      fun c hc => h c (mem_boardCards.mpr (Or.inr hc))⟩
  · rintro ⟨hcols, harch⟩ c hc
    rcases mem_boardCards.mp hc with ⟨col, hcol, hcc⟩ | h
    · exact hcols col hcol c hcc
    · exact harch c h

theorem cols_map_norm (cols : List Column) (f : Column → Column)
    (hcols : ∀ col ∈ cols, ∀ c ∈ col.cards, CardNormalized c)
    (hf : ∀ col ∈ cols, ∀ c ∈ (f col).cards, c ∈ col.cards ∨ CardNormalized c) :
    ∀ col ∈ cols.map f, ∀ c ∈ col.cards, CardNormalized c := by
  intro col' hcol' c hc
  rcases List.mem_map.mp hcol' with ⟨col, hcol, rfl⟩
  rcases hf col hcol c hc with h | h
  · exact hcols col hcol c h
  · exact h

theorem mem_spliceRemove {l : List α} {i : Nat} {x : α} (h : x ∈ spliceRemove l i) :
    x ∈ l := by
  unfold spliceRemove at h
  rcases List.mem_append.mp h with h | h
  · exact List.mem_of_mem_take h
  · exact List.mem_of_mem_drop h

theorem mem_spliceInsert {l : List α} {i : Nat} {a x : α} (h : x ∈ spliceInsert l i a) :
    x = a ∨ x ∈ l := by
  unfold spliceInsert at h
  rcases List.mem_append.mp h with h | h
  · exact Or.inr (List.mem_of_mem_take h)
  · rcases List.mem_cons.mp h with h | h
    · exact Or.inl h
    · exact Or.inr (List.mem_of_mem_drop h)

/-- Card payloads of an operation that the store inserts verbatim (the
in-repo callers construct all of them through `normalizeCard`). -/
def opPayloadNormalized : StoreOp → Prop
  | .addColumn col => ∀ c ∈ col.cards, CardNormalized c
  | .addCard _ card _ => CardNormalized card
  | .insertCards _ cards _ => ∀ c ∈ cards, CardNormalized c
  | _ => True

/-- Every store operation whose card payloads are normalized maps a
board of normalized cards to a board of normalized cards. -/
theorem applyOp_normalized (st : BoardStore) (op : StoreOp)
    (hst : NormalizedBoard st.board) (hop : opPayloadNormalized op) :
    NormalizedBoard (applyOp st op).board := by
  obtain ⟨hcols, harch⟩ := normalizedBoard_iff.mp hst
  cases op with
  | setBoard b => exact cloneBoard_normalized b
  | setFilterQuery q => exact hst
  | setFilterTag t => exact hst
  | clearFilter => exact hst
  | setBoardMetadata t d dens => exact normalizedBoard_iff.mpr ⟨hcols, harch⟩
  | addColumn col =>
    refine normalizedBoard_iff.mpr ⟨?_, harch⟩
    intro col' hcol' c hc
    rcases List.mem_append.mp hcol' with h | h
    · exact hcols col' h c hc
    · rw [List.mem_singleton.mp h] at hc
      exact hop c hc
  | renameColumn cid t =>
    refine normalizedBoard_iff.mpr ⟨cols_map_norm _ _ hcols ?_, harch⟩
    intro col hcol c hc
    left
    by_cases h : (col.id == cid) = true <;> simpa [h] using hc
  | setColumnWipLimit cid lim =>
    refine normalizedBoard_iff.mpr ⟨cols_map_norm _ _ hcols ?_, harch⟩
    intro col hcol c hc
    left
    by_cases h : (col.id == cid) = true <;> simpa [h] using hc
  | deleteColumn cid =>
    refine normalizedBoard_iff.mpr ⟨?_, harch⟩
    intro col' hcol' c hc
    exact hcols col' (List.mem_of_mem_filter hcol') c hc
  | moveColumn cid idx =>
    cases hidx : st.board.columns.findIdx? (fun c => c.id == cid) with
    | none =>
      have he : applyOp st (.moveColumn cid idx) = st := by
        simp [applyOp, moveColumn, hidx]
      rw [he]
      exact hst
    | some si =>
      cases hgs : st.board.columns[si]? with
      | none =>
        have he : applyOp st (.moveColumn cid idx) = st := by
          simp [applyOp, moveColumn, hidx, hgs]
        rw [he]
        exact hst
      | some moved =>
        refine normalizedBoard_iff.mpr ⟨?_, ?_⟩
        · intro col' hcol' c hc
          simp only [applyOp, moveColumn, List.get?_eq_getElem?, hidx, hgs] at hcol'
          rcases mem_spliceInsert hcol' with rfl | h
          · exact hcols col' (List.getElem?_mem hgs) c hc
          · exact hcols col' (mem_spliceRemove h) c hc
        · intro c hcc
          simp only [applyOp, moveColumn, List.get?_eq_getElem?, hidx, hgs] at hcc
          exact harch c hcc
  | addCard cid card top =>
    refine normalizedBoard_iff.mpr ⟨cols_map_norm _ _ hcols ?_, harch⟩
    intro col hcol c hc
    by_cases h : (col.id == cid) = true
    · cases top with
      | true =>
        simp only [h, if_true] at hc
        rcases List.mem_cons.mp hc with rfl | hmem
        · exact Or.inr hop
        · exact Or.inl hmem
      | false =>
        simp only [h, if_true, Bool.false_eq_true, if_false] at hc
        rcases List.mem_append.mp hc with hmem | hone
        · exact Or.inl hmem
        · rw [List.mem_singleton.mp hone]
          exact Or.inr hop
    · simp only [h, Bool.false_eq_true, if_false] at hc
      exact Or.inl hc
  | insertCards cid cards before =>
    by_cases hce : cards.isEmpty
    · have he : applyOp st (.insertCards cid cards before) = st := by
        simp [applyOp, insertCardsFromParsedLines, hce]
      rw [he]
      exact hst
    · refine normalizedBoard_iff.mpr ⟨?_, ?_⟩
      · have hcl : (applyOp st (.insertCards cid cards before)).board.columns =
            st.board.columns.map (fun column =>
              if column.id == cid then
                { column with cards :=
                    if before then cards ++ column.cards else column.cards ++ cards }
              else column) := by
          simp [applyOp, insertCardsFromParsedLines, hce]
        rw [hcl]
        refine cols_map_norm _ _ hcols ?_
        intro col hcol c hc
        by_cases h : (col.id == cid) = true
        · cases before with
          | true =>
            simp only [h, if_true] at hc
            rcases List.mem_append.mp hc with hnew | hold
            · exact Or.inr (hop c hnew)
            · exact Or.inl hold
          | false =>
            simp only [h, if_true, Bool.false_eq_true, if_false] at hc
            rcases List.mem_append.mp hc with hold | hnew
            · exact Or.inl hold
            · exact Or.inr (hop c hnew)
        · simp only [h, Bool.false_eq_true, if_false] at hc
          exact Or.inl hc
      · have ha : (applyOp st (.insertCards cid cards before)).board.archive =
            st.board.archive := by
          simp [applyOp, insertCardsFromParsedLines, hce]
        rw [ha]
        exact harch
  | updateCard cid k f =>
    refine normalizedBoard_iff.mpr ⟨cols_map_norm _ _ hcols ?_, harch⟩
    intro col hcol c hc
    by_cases h : (col.id == cid) = true
    · simp only [h, if_true] at hc
      rcases List.mem_map.mp hc with ⟨card0, hcard0, rfl⟩
      by_cases hk : (card0.id == k) = true
      · simp only [hk, if_true]
        exact Or.inr (normalizeCard_normalized _)
      · simp only [hk, Bool.false_eq_true, if_false]
        exact Or.inl hcard0
    · simp only [h, Bool.false_eq_true, if_false] at hc
      exact Or.inl hc
  | deleteCard cid k =>
    refine normalizedBoard_iff.mpr ⟨cols_map_norm _ _ hcols ?_, harch⟩
    intro col hcol c hc
    by_cases h : (col.id == cid) = true
    · simp only [h, if_true] at hc
      exact Or.inl (List.mem_of_mem_filter hc)
    · simp only [h, Bool.false_eq_true, if_false] at hc
      exact Or.inl hc
  | clearColumnCards cid =>
    cases hf : st.board.columns.find? (fun c => c.id == cid) with
    | none =>
      have he : applyOp st (.clearColumnCards cid) = st := by
        simp [applyOp, clearColumnCards, hf]
      rw [he]
      exact hst
    | some c0 =>
      by_cases hz : (c0.cards.length == 0) = true
      · have he : applyOp st (.clearColumnCards cid) = st := by
          simp [applyOp, clearColumnCards, hf, hz]
        rw [he]
        exact hst
      · refine normalizedBoard_iff.mpr ⟨?_, ?_⟩
        · have hcl : (applyOp st (.clearColumnCards cid)).board.columns =
              st.board.columns.map (fun entry =>
                if entry.id == cid then { entry with cards := [] } else entry) := by
            simp [applyOp, clearColumnCards, hf, hz]
          rw [hcl]
          refine cols_map_norm _ _ hcols ?_
          intro col hcol c hc
          by_cases h : (col.id == cid) = true
          · simp [h] at hc
          · simp only [h, Bool.false_eq_true, if_false] at hc
            exact Or.inl hc
        · have ha : (applyOp st (.clearColumnCards cid)).board.archive =
              st.board.archive := by
            simp [applyOp, clearColumnCards, hf, hz]
          rw [ha]
          exact harch
  | archiveColumnCards cid =>
    cases hf : st.board.columns.find? (fun c => c.id == cid) with
    | none =>
      have he : applyOp st (.archiveColumnCards cid) = st := by
        simp [applyOp, archiveColumnCards, hf]
      rw [he]
      exact hst
    | some c0 =>
      by_cases hce : c0.cards.isEmpty
      · have he : applyOp st (.archiveColumnCards cid) = st := by
          simp [applyOp, archiveColumnCards, hf, hce]
        rw [he]
        exact hst
      · refine normalizedBoard_iff.mpr ⟨?_, ?_⟩
        · have hcl : (applyOp st (.archiveColumnCards cid)).board.columns =
              st.board.columns.map (fun entry =>
                if entry.id == cid then { entry with cards := [] } else entry) := by
            simp [applyOp, archiveColumnCards, hf, hce]
          rw [hcl]
          refine cols_map_norm _ _ hcols ?_
          intro col hcol c hc
          by_cases h : (col.id == cid) = true
          · simp [h] at hc
          · simp only [h, Bool.false_eq_true, if_false] at hc
            exact Or.inl hc
        · have ha : (applyOp st (.archiveColumnCards cid)).board.archive =
              st.board.archive ++ c0.cards := by
            simp [applyOp, archiveColumnCards, hf, hce]
          rw [ha]
          intro c hcc
          rcases List.mem_append.mp hcc with h | h
          · exact harch c h
          · exact hcols c0 (List.mem_of_find?_eq_some hf) c h
  | moveCard srcId k tgtId idx =>
    cases hsi : st.board.columns.findIdx? (fun c => c.id == srcId) with
    | none =>
      have he : applyOp st (.moveCard srcId k tgtId idx) = st := by
        simp [applyOp, moveCard, hsi]
      rw [he]
      exact hst
    | some si =>
      cases hti : st.board.columns.findIdx? (fun c => c.id == tgtId) with
      | none =>
        have he : applyOp st (.moveCard srcId k tgtId idx) = st := by
          simp [applyOp, moveCard, hsi, hti]
        rw [he]
        exact hst
      | some ti =>
        cases hgs : st.board.columns[si]? with
        | none =>
          have he : applyOp st (.moveCard srcId k tgtId idx) = st := by
            simp [applyOp, moveCard, hsi, hti, hgs]
          rw [he]
          exact hst
        | some sourceColumn =>
          cases hgt : st.board.columns[ti]? with
          | none =>
            have he : applyOp st (.moveCard srcId k tgtId idx) = st := by
              simp [applyOp, moveCard, hsi, hti, hgs, hgt]
            rw [he]
            exact hst
          | some targetColumn =>
            cases hci : sourceColumn.cards.findIdx? (fun c => c.id == k) with
            | none =>
              have he : applyOp st (.moveCard srcId k tgtId idx) = st := by
                simp [applyOp, moveCard, hsi, hti, hgs, hgt, hci]
              rw [he]
              exact hst
            | some ci =>
              cases hgc : sourceColumn.cards[ci]? with
              | none =>
                have he : applyOp st (.moveCard srcId k tgtId idx) = st := by
                  simp [applyOp, moveCard, hsi, hti, hgs, hgt, hci, hgc]
                rw [he]
                exact hst
              | some card =>
                have hsrcmem : sourceColumn ∈ st.board.columns := List.getElem?_mem hgs
                have hcardmem : card ∈ sourceColumn.cards := List.getElem?_mem hgc
                by_cases hsame : (srcId == tgtId) = true
                · refine normalizedBoard_iff.mpr ⟨?_, ?_⟩
                  · intro col' hcol' c hc
                    simp only [applyOp, moveCard, List.get?_eq_getElem?, hsi, hti, hgs, hgt, hci, hgc, hsame,
                      if_true] at hcol'
                    rcases List.mem_or_eq_of_mem_set hcol' with h | rfl
                    · exact hcols col' h c hc
                    · rcases mem_spliceInsert (by simpa using hc) with rfl | h
                      · exact hcols sourceColumn hsrcmem _ hcardmem
                      · exact hcols sourceColumn hsrcmem c (mem_spliceRemove h)
                  · intro c hcc
                    simp only [applyOp, moveCard, List.get?_eq_getElem?, hsi, hti, hgs, hgt, hci, hgc, hsame,
                      if_true] at hcc
                    exact harch c hcc
                · refine normalizedBoard_iff.mpr ⟨?_, ?_⟩
                  · intro col' hcol' c hc
                    simp only [applyOp, moveCard, List.get?_eq_getElem?, hsi, hti, hgs, hgt, hci, hgc, hsame,
                      Bool.false_eq_true, if_false] at hcol'
                    rcases List.mem_or_eq_of_mem_set hcol' with h | rfl
                    · rcases List.mem_or_eq_of_mem_set h with h2 | rfl
                      · exact hcols col' h2 c hc
                      · exact hcols sourceColumn hsrcmem c (mem_spliceRemove (by simpa using hc))
                    · rcases mem_spliceInsert (by simpa using hc) with rfl | h
                      · exact hcols sourceColumn hsrcmem _ hcardmem
                      · exact hcols targetColumn (List.getElem?_mem hgt) c h
                  · intro c hcc
                    simp only [applyOp, moveCard, List.get?_eq_getElem?, hsi, hti, hgs, hgt, hci, hgc, hsame,
                      Bool.false_eq_true, if_false] at hcc
                    exact harch c hcc

theorem applyOps_normalized (st : BoardStore) (ops : List StoreOp)
    (hst : NormalizedBoard st.board) (hops : ∀ op ∈ ops, opPayloadNormalized op) :
    NormalizedBoard (applyOps st ops).board := by
  induction ops generalizing st with
  | nil => exact hst
  | cons op rest ih =>
    exact ih (applyOp st op) (applyOp_normalized st op hst (hops op (List.mem_cons_self op rest)))
      (fun o ho => hops o (List.mem_cons_of_mem _ ho))

theorem getLast?_mem_list {l : List α} {a : α} (h : l.getLast? = some a) : a ∈ l := by
  rcases List.mem_getLast?_eq_getLast (Option.mem_def.mpr h) with ⟨hne, rfl⟩
  exact List.getLast_mem hne

/-- Every card produced by the card-line scanner went through
`normalizeCard`. -/
theorem parseCardsGo_normalized (fuel : Nat) :
    ∀ lines : List String, ∀ c ∈ parseCardsGo fuel lines, CardNormalized c := by
  induction fuel with
  | zero =>
    intro lines c hc
    cases lines <;> simp [parseCardsGo] at hc
  | succ f ih =>
    intro lines c hc
    cases lines with
    | nil => simp [parseCardsGo] at hc
    | cons l rest =>
      rw [parseCardsGo.eq_def] at hc
      cases hm : matchCardLine l with
      | none =>
        simp only [hm] at hc
        exact ih rest c hc
      | some t =>
        obtain ⟨m, idRaw, titleRaw⟩ := t
        simp only [hm] at hc
        rcases List.mem_cons.mp hc with rfl | h
        · exact normalizeCard_normalized _
        · exact ih _ c h

theorem parseCardsFromLines_normalized (lines : List String) :
    ∀ c ∈ parseCardsFromLines lines, CardNormalized c :=
  parseCardsGo_normalized lines.length lines

theorem parseColumnsGo_normalized (fuel : Nat) :
    ∀ lines : List String, ∀ pc ∈ parseColumnsGo fuel lines, ∀ c ∈ pc.cards,
      CardNormalized c := by
  induction fuel with
  | zero =>
    intro lines pc hpc
    cases lines <;> simp [parseColumnsGo] at hpc
  | succ f ih =>
    intro lines pc hpc
    cases lines with
    | nil => simp [parseColumnsGo] at hpc
    | cons l rest =>
      rw [parseColumnsGo.eq_def] at hpc
      cases hm : matchHeadingLine l with
      | none =>
        simp only [hm] at hpc
        exact ih rest pc hpc
      | some t =>
        obtain ⟨idRaw, titleRest⟩ := t
        simp only [hm] at hpc
        rcases List.mem_cons.mp hpc with rfl | h
        · exact fun c hc => parseCardsFromLines_normalized _ c hc
        · exact ih _ pc h

theorem parseColumnsFromBody_normalized (body : String) :
    ∀ pc ∈ parseColumnsFromBody body, ∀ c ∈ pc.cards, CardNormalized c := by
  unfold parseColumnsFromBody
  exact parseColumnsGo_normalized _ _

theorem extractArchiveSection_normalized (body : String) :
    ∀ c ∈ (extractArchiveSection body).snd, CardNormalized c := by
  intro c hc
  unfold extractArchiveSection at hc
  dsimp only at hc
  split at hc
  · simp at hc
  · split at hc
    · simp at hc
    · exact parseCardsFromLines_normalized _ c (by simpa using hc)

theorem mergeColumns_cards_normalized (defs : List ColumnDefinition)
    (body : List ParsedColumn)
    (hbody : ∀ pc ∈ body, ∀ c ∈ pc.cards, CardNormalized c) :
    ∀ col ∈ mergeColumns defs body, ∀ c ∈ col.cards, CardNormalized c := by
  intro col hcol c hc
  unfold mergeColumns at hcol
  rcases List.mem_append.mp hcol with h | h
  · rcases List.mem_map.mp h with ⟨d, hd, rfl⟩
    revert hc
    cases hb : bodyColumnById body d.id with
    | none =>
      intro hc
      simp [hb] at hc
    | some bc =>
      intro hc
      have hbc : bc ∈ body :=
        List.mem_of_mem_filter (getLast?_mem_list hb)
      exact hbody bc hbc c (by simpa [hb] using hc)
  · rcases List.mem_map.mp h with ⟨bc, hbc, rfl⟩
    exact hbody bc (List.mem_of_mem_filter hbc) c (by simpa using hc)

/-- Every card of a parsed document is a `normalizeCard` fixed point. -/
theorem parseBoardMarkdown_normalized (content : String) (d : BoardDocument)
    (h : parseBoardMarkdown content = .ok d) : NormalizedBoard d := by
  unfold parseBoardMarkdown at h
  cases hs : splitFrontmatter content with
  | error e =>
    rw [hs] at h
    exact absurd h (by simp)
  | ok p =>
    obtain ⟨fm, body⟩ := p
    rw [hs] at h
    cases hk : fm.get? "kanban" with
    | none => simp [hk] at h
    | some v =>
      cases v with
      | nullV => simp [hk] at h
      | numV n => simp [hk] at h
      | strV s => simp [hk] at h
      | arrV items => simp [hk] at h
      | objV entries => simp [hk] at h
      | boolV b =>
        cases b with
        | false => simp [hk] at h
        | true =>
          simp only [hk] at h
          have harchn : ∀ c ∈ (extractArchiveSection body).snd, CardNormalized c :=
            extractArchiveSection_normalized body
          have hcolsn := mergeColumns_cards_normalized
            (parseColumnDefinitions (fm.get? "columns"))
            (parseColumnsFromBody (extractArchiveSection body).fst)
            (parseColumnsFromBody_normalized _)
          split at h
          · rw [Except.ok.injEq] at h
            subst h
            refine normalizedBoard_iff.mpr ⟨?_, harchn⟩
            intro col hcol
            simp [createDefaultBoard] at hcol
          · rw [Except.ok.injEq] at h
            subst h
            exact normalizedBoard_iff.mpr ⟨hcolsn, harchn⟩

theorem snapshot_visible_normalized (st : BoardStore) (hst : NormalizedBoard st.board) :
    ∀ col ∈ (getSnapshot st).visibleColumns, ∀ c ∈ col.cards, CardNormalized c := by
  intro col hcol c hc
  unfold getSnapshot at hcol
  dsimp only at hcol
  split at hcol
  · exact (normalizedBoard_iff.mp (cloneBoard_normalized st.board)).1 col hcol c hc
  · rcases List.mem_map.mp hcol with ⟨col0, hcol0, rfl⟩
    exact (normalizedBoard_iff.mp hst).1 col0 hcol0 c (List.mem_of_mem_filter hc)

/-- C5 (confirmed): for documents observable from the system — the
output of `parseBoardMarkdown`, and `getBoard()`/`getSnapshot()` of a
store after any sequence of operations whose card payloads are
normalized (every in-repo caller builds them with `normalizeCard`) —
each card's `tags` equals the sorted deduplicated lowercased hashtag
set of `title ++ "\n" ++ description`, and its `searchText` is the
lowercase join of title, description, tags and due date. -/
theorem derived_fields_invariant (init : BoardDocument) (ops : List StoreOp)
    (hops : ∀ op ∈ ops, opPayloadNormalized op) (content : String) (d : BoardDocument) :
    (∀ c ∈ boardCards (getBoard (applyOps (mkStore init) ops)), DerivedConsistent c) ∧
    (∀ c ∈ boardCards ((getSnapshot (applyOps (mkStore init) ops)).board),
      DerivedConsistent c) ∧
    (∀ col ∈ (getSnapshot (applyOps (mkStore init) ops)).visibleColumns,
      ∀ c ∈ col.cards, DerivedConsistent c) ∧
    (parseBoardMarkdown content = .ok d → ∀ c ∈ boardCards d, DerivedConsistent c) := by
  have hnorm : NormalizedBoard (applyOps (mkStore init) ops).board :=
    applyOps_normalized _ _ (cloneBoard_normalized init) hops
  refine ⟨?_, ?_, ?_, ?_⟩
  · intro c hc
    exact normalized_derivedConsistent c (cloneBoard_normalized _ c hc)
  · intro c hc
    rw [getSnapshot_board] at hc
    exact normalized_derivedConsistent c (cloneBoard_normalized _ c hc)
  · intro col hcol c hc
    exact normalized_derivedConsistent c (snapshot_visible_normalized _ hnorm col hcol c hc)
  · intro hp c hc
    exact normalized_derivedConsistent c (parseBoardMarkdown_normalized content d hp c hc)

/-- Witness for C5: after a concrete `addCard` on a concrete store, a
concrete observable card has consistent derived fields. -/
theorem derived_fields_invariant_witness :
    DerivedConsistent (mkPlainCard "D" "D #tag") :=
  (derived_fields_invariant laneBoard3
    [StoreOp.addCard "lane" (mkPlainCard "D" "D #tag") true]
    (fun op hop => by
      cases List.mem_singleton.mp hop
      exact normalizeCard_normalized _)
    "x" (createDefaultBoard "t")).1 (mkPlainCard "D" "D #tag") (by decide)

end GxKanban
